import Mathlib

/-!
# OSS-Guardian — verification of the analysis pipeline

Shallow embedding of the security-analysis engines of the OSS-Guardian
repository (risk assessor, threat identifier, Python/Go taint analyzers,
CFG analyzer, pattern matcher, fuzzer, dynamic-log extractors, sandbox
result assembly), together with theorems settling the specification
claims about them.  Every definition is translated directly from the
Python source file named in its doc comment.
-/

namespace Util

/-- Insert `x` into a strictly ascending list keeping it strictly ascending
(duplicates dropped).  Folding this over a list is the Lean rendering of
Python's `sorted(set(xs))`. -/
def insertSorted {α : Type} [LinearOrder α] (x : α) : List α → List α
  | [] => [x]
  | y :: ys =>
      if x < y then x :: y :: ys
      else if x = y then y :: ys
      else y :: insertSorted x ys

/-- Python's `sorted(set(xs))`: the strictly ascending enumeration of the
distinct elements of `xs`. -/
def sortedDedup {α : Type} [LinearOrder α] (l : List α) : List α :=
  l.foldr insertSorted []

theorem mem_insertSorted {α : Type} [LinearOrder α] (x a : α) (l : List α) :
    a ∈ insertSorted x l ↔ a = x ∨ a ∈ l := by
  induction l with
  | nil => simp [insertSorted]
  | cons y ys ih =>
      simp only [insertSorted]
      by_cases h1 : x < y
      · rw [if_pos h1]
        simp [List.mem_cons, or_comm, or_left_comm, or_assoc]
      · by_cases h2 : x = y
        · rw [if_neg h1, if_pos h2]; subst h2
          simp only [List.mem_cons]
          constructor
          · intro h; exact Or.inr h
          · rintro (rfl | h)
            · exact Or.inl rfl
            · exact h
        · rw [if_neg h1, if_neg h2]
          simp [List.mem_cons, ih, or_comm, or_left_comm, or_assoc]

theorem sorted_insertSorted {α : Type} [LinearOrder α] (x : α) (l : List α)
    (h : l.Sorted (· < ·)) : (insertSorted x l).Sorted (· < ·) := by
  induction l with
  | nil => simp [insertSorted]
  | cons y ys ih =>
      rw [List.sorted_cons] at h
      simp only [insertSorted]
      by_cases h1 : x < y
      · rw [if_pos h1, List.sorted_cons]
        refine ⟨?_, by rw [List.sorted_cons]; exact h⟩
        intro b hb
        rcases List.mem_cons.mp hb with rfl | hb
        · exact h1
        · exact lt_trans h1 (h.1 b hb)
      · by_cases h2 : x = y
        · rw [if_neg h1, if_pos h2, List.sorted_cons]; exact h
        · rw [if_neg h1, if_neg h2, List.sorted_cons]
          refine ⟨?_, ih h.2⟩
          intro b hb
          rcases (mem_insertSorted x b ys).mp hb with rfl | hb
          · exact lt_of_le_of_ne (le_of_not_lt h1) (Ne.symm h2)
          · exact h.1 b hb

theorem sortedDedup_sorted {α : Type} [LinearOrder α] (l : List α) :
    (sortedDedup l).Sorted (· < ·) := by
  induction l with
  | nil => simp [sortedDedup]
  | cons x xs ih => exact sorted_insertSorted x _ ih

theorem mem_sortedDedup {α : Type} [LinearOrder α] (a : α) (l : List α) :
    a ∈ sortedDedup l ↔ a ∈ l := by
  induction l with
  | nil => simp [sortedDedup]
  | cons x xs ih =>
      simp only [sortedDedup, List.foldr_cons, mem_insertSorted, List.mem_cons]
      rw [show List.foldr insertSorted [] xs = sortedDedup xs from rfl] at *
      rw [ih]

theorem sortedDedup_nodup {α : Type} [LinearOrder α] (l : List α) :
    (sortedDedup l).Nodup :=
  (sortedDedup_sorted l).nodup

end Util

namespace RiskAssessor

/-- Result of `_calculate_risk_score` (src/engines/analysis/risk_assessor.py):
the numeric score and the level string. -/
structure ScoreData where
  risk_score : Nat
  risk_level : String
  deriving Repr, DecidableEq

/-- Embeds `_calculate_risk_score` from src/engines/analysis/risk_assessor.py.
Severity counts are non-negative integers (`Nat`); the score is
`min(30*critical + 15*high + 5*medium + 1*low, 100)` and the level follows
the exact threshold chain of the source. -/
def calculate_risk_score (critical_count high_count medium_count low_count : Nat) :
    ScoreData :=
  let riskScore :=
    min (critical_count * 30 + high_count * 15 + medium_count * 5 + low_count * 1) 100
  let riskLevel :=
    if riskScore ≥ 80 then "critical"
    else if riskScore ≥ 50 then "high"
    else if riskScore ≥ 20 then "medium"
    else "low"
  ⟨riskScore, riskLevel⟩

end RiskAssessor

/-- C1: for all non-negative severity counts, `_calculate_risk_score` returns
`risk_score = min(100, 30*critical + 15*high + 5*medium + 1*low)` with the
level given by the exact thresholds (≥80 critical, ≥50 high, ≥20 medium, else
low); the score is clamped to [0,100], increasing any single count never
decreases the score, and the boundary scores 19/20, 49/50, 79/80 map to
low/medium, medium/high, high/critical respectively. -/
theorem C1_risk_assessor (c h m l : Nat) :
    (RiskAssessor.calculate_risk_score c h m l).risk_score
        = min 100 (30 * c + 15 * h + 5 * m + 1 * l)
    ∧ (RiskAssessor.calculate_risk_score c h m l).risk_level
        = (if 80 ≤ (RiskAssessor.calculate_risk_score c h m l).risk_score then "critical"
           else if 50 ≤ (RiskAssessor.calculate_risk_score c h m l).risk_score then "high"
           else if 20 ≤ (RiskAssessor.calculate_risk_score c h m l).risk_score then "medium"
           else "low")
    ∧ (RiskAssessor.calculate_risk_score c h m l).risk_score ≤ 100
    ∧ (RiskAssessor.calculate_risk_score c h m l).risk_score
        ≤ (RiskAssessor.calculate_risk_score (c + 1) h m l).risk_score
    ∧ (RiskAssessor.calculate_risk_score c h m l).risk_score
        ≤ (RiskAssessor.calculate_risk_score c (h + 1) m l).risk_score
    ∧ (RiskAssessor.calculate_risk_score c h m l).risk_score
        ≤ (RiskAssessor.calculate_risk_score c h (m + 1) l).risk_score
    ∧ (RiskAssessor.calculate_risk_score c h m l).risk_score
        ≤ (RiskAssessor.calculate_risk_score c h m (l + 1)).risk_score
    ∧ RiskAssessor.calculate_risk_score 0 1 0 4
        = ⟨19, "low"⟩
    ∧ RiskAssessor.calculate_risk_score 0 1 1 0
        = ⟨20, "medium"⟩
    ∧ RiskAssessor.calculate_risk_score 1 1 0 4
        = ⟨49, "medium"⟩
    ∧ RiskAssessor.calculate_risk_score 1 0 4 0
        = ⟨50, "high"⟩
    ∧ RiskAssessor.calculate_risk_score 2 1 0 4
        = ⟨79, "high"⟩
    ∧ RiskAssessor.calculate_risk_score 2 0 4 0
        = ⟨80, "critical"⟩ := by
  refine ⟨?_, ?_, ?_, ?_, ?_, ?_, ?_, ?_, ?_, ?_, ?_, ?_, ?_⟩ <;>
    simp only [RiskAssessor.calculate_risk_score, ge_iff_le] <;>
    first
      | omega
      | rfl

namespace CFG

/-- Python statement shape, as far as src/engines/static/cfg_analysis.py
inspects it: every statement carries its `lineno`; `if`/`for`/`while` carry a
`body` and an `orelse` block; `try` carries a `body`, the bodies of its
`except` handlers, an `orelse` and a `finalbody` block.  Any other statement
kind (assignments, expression statements, ...) is `simple`. -/
inductive PyStmt where
  | simple : Nat → PyStmt
  | ifS : Nat → List PyStmt → List PyStmt → PyStmt
  | forS : Nat → List PyStmt → List PyStmt → PyStmt
  | whileS : Nat → List PyStmt → List PyStmt → PyStmt
  | tryS : Nat → List PyStmt → List (List PyStmt) → List PyStmt → List PyStmt → PyStmt

/-- Embeds `stmt.lineno`. -/
def PyStmt.lineno : PyStmt → Nat
  | .simple l => l
  | .ifS l _ _ => l
  | .forS l _ _ => l
  | .whileS l _ _ => l
  | .tryS l _ _ _ _ => l

/-- Embeds `isinstance(stmt, (ast.If, ast.For, ast.While, ast.Try))`. -/
def PyStmt.isCtrl : PyStmt → Bool
  | .simple _ => false
  | _ => true

mutual

/-- Embeds `CFGAnalyzer._get_body_lines` (src/engines/static/cfg_analysis.py):
collect the line numbers of the statements of a block, recursing into the
branches of nested control structures, then `sorted(set(...))`. -/
def get_body_lines (body : List PyStmt) : List Nat :=
  Util.sortedDedup (bodyLinesAux body)

/-- The `lines` list built by `_get_body_lines` before `sorted(set(...))`. -/
def bodyLinesAux : List PyStmt → List Nat
  | [] => []
  | s :: rest => (s.lineno :: nestedLines s) ++ bodyLinesAux rest

/-- The lines `_get_body_lines` adds for one statement's nested structures. -/
def nestedLines : PyStmt → List Nat
  | .simple _ => []
  | .ifS _ b o => get_body_lines b ++ (if o.isEmpty then [] else get_body_lines o)
  | .forS _ b o => get_body_lines b ++ (if o.isEmpty then [] else get_body_lines o)
  | .whileS _ b o => get_body_lines b ++ (if o.isEmpty then [] else get_body_lines o)
  | .tryS _ b hs o f =>
      get_body_lines b ++ handlerLines hs ++
      (if o.isEmpty then [] else get_body_lines o) ++
      (if f.isEmpty then [] else get_body_lines f)

/-- Embeds `for handler in stmt.handlers: lines.extend(self._get_body_lines(handler.body))`. -/
def handlerLines : List (List PyStmt) → List Nat
  | [] => []
  | h :: rest => get_body_lines h ++ handlerLines rest

end

/-- Embeds `max_line` folded over the top-level statements of an `orelse`/`finalbody`
block (no recursion, exactly as `_get_end_line` does). -/
def maxTopLevel (m : Nat) (stmts : List PyStmt) : Nat :=
  stmts.foldl (fun acc s => max acc s.lineno) m

mutual

/-- Embeds `CFGAnalyzer._get_end_line` (src/engines/static/cfg_analysis.py):
maximum of the node's own line, its body statements' lines (recursing into
nested control structures), and the top-level lines of `orelse` and
`finalbody`.  Handler bodies of a `try` are not inspected. -/
def get_end_line : PyStmt → Nat
  | .simple l => l
  | .ifS l b o => maxTopLevel (endLineBody l b) o
  | .forS l b o => maxTopLevel (endLineBody l b) o
  | .whileS l b o => maxTopLevel (endLineBody l b) o
  | .tryS l b _ o f => maxTopLevel (maxTopLevel (endLineBody l b) o) f

/-- The body loop of `_get_end_line`. -/
def endLineBody (m : Nat) : List PyStmt → Nat
  | [] => m
  | s :: rest =>
      let m1 := max m s.lineno
      let m2 := if s.isCtrl then max m1 (get_end_line s) else m1
      endLineBody m2 rest

end

/-- One record of `CFGAnalyzer.cfg_structures`.  The presentation-only string
fields built by `_get_node_repr` (`condition`, `target`, `iter`) are omitted:
no claim mentions them.  `except_lines`/`finally_lines` only occur on `try`
records and default to `[]` elsewhere. -/
structure CFGStruct where
  type : String
  start_line : Nat
  end_line : Nat
  body_lines : List Nat
  else_lines : List Nat
  except_lines : List Nat := []
  finally_lines : List Nat := []
  deriving Repr, DecidableEq

mutual

/-- The `ast.NodeVisitor` traversal of `CFGAnalyzer`: `visit_If`, `visit_For`,
`visit_While`, `visit_Try` each append one record and then `generic_visit`
recurses into the children in field order. -/
def visitStmt : PyStmt → List CFGStruct
  | .simple _ => []
  | .ifS l b o =>
      { type := "if", start_line := l, end_line := get_end_line (.ifS l b o),
        body_lines := get_body_lines b,
        else_lines := if o.isEmpty then [] else get_body_lines o }
        :: (visitBlock b ++ visitBlock o)
  | .forS l b o =>
      { type := "for", start_line := l, end_line := get_end_line (.forS l b o),
        body_lines := get_body_lines b,
        else_lines := if o.isEmpty then [] else get_body_lines o }
        :: (visitBlock b ++ visitBlock o)
  | .whileS l b o =>
      { type := "while", start_line := l, end_line := get_end_line (.whileS l b o),
        body_lines := get_body_lines b,
        else_lines := if o.isEmpty then [] else get_body_lines o }
        :: (visitBlock b ++ visitBlock o)
  | .tryS l b hs o f =>
      { type := "try", start_line := l, end_line := get_end_line (.tryS l b hs o f),
        body_lines := get_body_lines b,
        else_lines := if o.isEmpty then [] else get_body_lines o,
        except_lines := handlerLines hs,
        finally_lines := if f.isEmpty then [] else get_body_lines f }
        :: (visitBlock b ++ visitHandlers hs ++ visitBlock o ++ visitBlock f)

def visitBlock : List PyStmt → List CFGStruct
  | [] => []
  | s :: rest => visitStmt s ++ visitBlock rest

def visitHandlers : List (List PyStmt) → List CFGStruct
  | [] => []
  | h :: rest => visitBlock h ++ visitHandlers rest

end

/-- Embeds `cfg_analysis.analyze`: run the visitor over the module body and return
the collected structures. -/
def analyze (tree : List PyStmt) : List CFGStruct :=
  visitBlock tree

mutual

/-- Line monotonicity of a statement under lower bound `n`: its own line is
at least `n` and every statement nested in any of its blocks has a line
number at least the statement's own line.  The Python parser guarantees this
for every parseable source. -/
def stmtGE (n : Nat) : PyStmt → Bool
  | .simple l => decide (n ≤ l)
  | .ifS l b o => decide (n ≤ l) && blockGE l b && blockGE l o
  | .forS l b o => decide (n ≤ l) && blockGE l b && blockGE l o
  | .whileS l b o => decide (n ≤ l) && blockGE l b && blockGE l o
  | .tryS l b hs o f =>
      decide (n ≤ l) && blockGE l b && handlersGE l hs && blockGE l o && blockGE l f

def blockGE (n : Nat) : List PyStmt → Bool
  | [] => true
  | s :: rest => stmtGE n s && blockGE n rest

def handlersGE (n : Nat) : List (List PyStmt) → Bool
  | [] => true
  | h :: rest => blockGE n h && handlersGE n rest

end

end CFG

namespace CFG

theorem stmtGE_lineno (n : Nat) (s : PyStmt) (h : stmtGE n s = true) : n ≤ s.lineno := by
  cases s <;>
    simp only [stmtGE, PyStmt.lineno, Bool.and_eq_true, decide_eq_true_eq] at h <;>
    first
      | exact h
      | exact h.1
      | exact h.1.1
      | exact h.1.1.1
      | exact h.1.1.1.1

theorem mem_get_body_lines (v : Nat) (b : List PyStmt) :
    v ∈ get_body_lines b ↔ v ∈ bodyLinesAux b := by
  rw [get_body_lines, Util.mem_sortedDedup]

mutual

theorem bodyLinesAux_lb (n : Nat) (b : List PyStmt) (h : blockGE n b = true) :
    ∀ v ∈ bodyLinesAux b, n ≤ v := by
  match b with
  | [] => intro v hv; simp [bodyLinesAux] at hv
  | s :: rest =>
      intro v hv
      simp only [blockGE, Bool.and_eq_true] at h
      simp only [bodyLinesAux, List.cons_append, List.mem_cons, List.mem_append] at hv
      rcases hv with rfl | hv | hv
      · exact stmtGE_lineno n s h.1
      · exact nestedLines_lb n s h.1 v hv
      · exact bodyLinesAux_lb n rest h.2 v hv

theorem nestedLines_lb (n : Nat) (s : PyStmt) (h : stmtGE n s = true) :
    ∀ v ∈ nestedLines s, n ≤ v := by
  match s with
  | .simple l => intro v hv; simp [nestedLines] at hv
  | .ifS l b o =>
      intro v hv
      simp only [stmtGE, Bool.and_eq_true, decide_eq_true_eq] at h
      obtain ⟨⟨hnl, hb⟩, ho⟩ := h
      simp only [nestedLines, List.mem_append] at hv
      rcases hv with hv | hv
      · exact le_trans hnl (bodyLinesAux_lb l b hb v ((mem_get_body_lines v b).mp hv))
      · split at hv
        · simp at hv
        · exact le_trans hnl (bodyLinesAux_lb l o ho v ((mem_get_body_lines v o).mp hv))
  | .forS l b o =>
      intro v hv
      simp only [stmtGE, Bool.and_eq_true, decide_eq_true_eq] at h
      obtain ⟨⟨hnl, hb⟩, ho⟩ := h
      simp only [nestedLines, List.mem_append] at hv
      rcases hv with hv | hv
      · exact le_trans hnl (bodyLinesAux_lb l b hb v ((mem_get_body_lines v b).mp hv))
      · split at hv
        · simp at hv
        · exact le_trans hnl (bodyLinesAux_lb l o ho v ((mem_get_body_lines v o).mp hv))
  | .whileS l b o =>
      intro v hv
      simp only [stmtGE, Bool.and_eq_true, decide_eq_true_eq] at h
      obtain ⟨⟨hnl, hb⟩, ho⟩ := h
      simp only [nestedLines, List.mem_append] at hv
      rcases hv with hv | hv
      · exact le_trans hnl (bodyLinesAux_lb l b hb v ((mem_get_body_lines v b).mp hv))
      · split at hv
        · simp at hv
        · exact le_trans hnl (bodyLinesAux_lb l o ho v ((mem_get_body_lines v o).mp hv))
  | .tryS l b hs o f =>
      intro v hv
      simp only [stmtGE, Bool.and_eq_true, decide_eq_true_eq] at h
      obtain ⟨⟨⟨⟨hnl, hb⟩, hhs⟩, ho⟩, hf⟩ := h
      simp only [nestedLines, List.mem_append] at hv
      rcases hv with ((hv | hv) | hv) | hv
      · exact le_trans hnl (bodyLinesAux_lb l b hb v ((mem_get_body_lines v b).mp hv))
      · exact le_trans hnl (handlerLines_lb l hs hhs v hv)
      · split at hv
        · simp at hv
        · exact le_trans hnl (bodyLinesAux_lb l o ho v ((mem_get_body_lines v o).mp hv))
      · split at hv
        · simp at hv
        · exact le_trans hnl (bodyLinesAux_lb l f hf v ((mem_get_body_lines v f).mp hv))

theorem handlerLines_lb (n : Nat) (hs : List (List PyStmt)) (h : handlersGE n hs = true) :
    ∀ v ∈ handlerLines hs, n ≤ v := by
  match hs with
  | [] => intro v hv; simp [handlerLines] at hv
  | hd :: rest =>
      intro v hv
      simp only [handlersGE, Bool.and_eq_true] at h
      simp only [handlerLines, List.mem_append] at hv
      rcases hv with hv | hv
      · exact bodyLinesAux_lb n hd h.1 v ((mem_get_body_lines v hd).mp hv)
      · exact handlerLines_lb n rest h.2 v hv

end

theorem get_body_lines_sorted (b : List PyStmt) :
    (get_body_lines b).Sorted (· < ·) := by
  rw [get_body_lines]; exact Util.sortedDedup_sorted _

mutual

theorem visitStmt_inv (n : Nat) (s : PyStmt) (h : stmtGE n s = true) :
    ∀ cfg ∈ visitStmt s,
      cfg.body_lines.Sorted (· < ·) ∧ ∀ v ∈ cfg.body_lines, cfg.start_line ≤ v := by
  match s with
  | .simple l => intro cfg hcfg; simp [visitStmt] at hcfg
  | .ifS l b o =>
      intro cfg hcfg
      simp only [stmtGE, Bool.and_eq_true, decide_eq_true_eq] at h
      obtain ⟨⟨hnl, hb⟩, ho⟩ := h
      simp only [visitStmt, List.mem_cons, List.mem_append] at hcfg
      rcases hcfg with rfl | hcfg | hcfg
      · exact ⟨get_body_lines_sorted b,
          fun v hv => bodyLinesAux_lb l b hb v ((mem_get_body_lines v b).mp hv)⟩
      · exact visitBlock_inv l b hb cfg hcfg
      · exact visitBlock_inv l o ho cfg hcfg
  | .forS l b o =>
      intro cfg hcfg
      simp only [stmtGE, Bool.and_eq_true, decide_eq_true_eq] at h
      obtain ⟨⟨hnl, hb⟩, ho⟩ := h
      simp only [visitStmt, List.mem_cons, List.mem_append] at hcfg
      rcases hcfg with rfl | hcfg | hcfg
      · exact ⟨get_body_lines_sorted b,
          fun v hv => bodyLinesAux_lb l b hb v ((mem_get_body_lines v b).mp hv)⟩
      · exact visitBlock_inv l b hb cfg hcfg
      · exact visitBlock_inv l o ho cfg hcfg
  | .whileS l b o =>
      intro cfg hcfg
      simp only [stmtGE, Bool.and_eq_true, decide_eq_true_eq] at h
      obtain ⟨⟨hnl, hb⟩, ho⟩ := h
      simp only [visitStmt, List.mem_cons, List.mem_append] at hcfg
      rcases hcfg with rfl | hcfg | hcfg
      · exact ⟨get_body_lines_sorted b,
          fun v hv => bodyLinesAux_lb l b hb v ((mem_get_body_lines v b).mp hv)⟩
      · exact visitBlock_inv l b hb cfg hcfg
      · exact visitBlock_inv l o ho cfg hcfg
  | .tryS l b hs o f =>
      intro cfg hcfg
      simp only [stmtGE, Bool.and_eq_true, decide_eq_true_eq] at h
      obtain ⟨⟨⟨⟨hnl, hb⟩, hhs⟩, ho⟩, hf⟩ := h
      simp only [visitStmt, List.mem_cons, List.mem_append] at hcfg
      rcases hcfg with rfl | ((hcfg | hcfg) | hcfg) | hcfg
      · exact ⟨get_body_lines_sorted b,
          fun v hv => bodyLinesAux_lb l b hb v ((mem_get_body_lines v b).mp hv)⟩
      · exact visitBlock_inv l b hb cfg hcfg
      · exact visitHandlers_inv l hs hhs cfg hcfg
      · exact visitBlock_inv l o ho cfg hcfg
      · exact visitBlock_inv l f hf cfg hcfg

theorem visitBlock_inv (n : Nat) (b : List PyStmt) (h : blockGE n b = true) :
    ∀ cfg ∈ visitBlock b,
      cfg.body_lines.Sorted (· < ·) ∧ ∀ v ∈ cfg.body_lines, cfg.start_line ≤ v := by
  match b with
  | [] => intro cfg hcfg; simp [visitBlock] at hcfg
  | s :: rest =>
      intro cfg hcfg
      simp only [blockGE, Bool.and_eq_true] at h
      simp only [visitBlock, List.mem_append] at hcfg
      rcases hcfg with hcfg | hcfg
      · exact visitStmt_inv n s h.1 cfg hcfg
      · exact visitBlock_inv n rest h.2 cfg hcfg

theorem visitHandlers_inv (n : Nat) (hs : List (List PyStmt)) (h : handlersGE n hs = true) :
    ∀ cfg ∈ visitHandlers hs,
      cfg.body_lines.Sorted (· < ·) ∧ ∀ v ∈ cfg.body_lines, cfg.start_line ≤ v := by
  match hs with
  | [] => intro cfg hcfg; simp [visitHandlers] at hcfg
  | hd :: rest =>
      intro cfg hcfg
      simp only [handlersGE, Bool.and_eq_true] at h
      simp only [visitHandlers, List.mem_append] at hcfg
      rcases hcfg with hcfg | hcfg
      · exact visitBlock_inv n hd h.1 cfg hcfg
      · exact visitHandlers_inv n rest h.2 cfg hcfg

end

end CFG

/-- C4, amended: for every parseable input (modelled as a line-monotone
statement tree, which the Python parser guarantees), every CFG structure's
`body_lines` is sorted strictly ascending (hence duplicate-free) and every
value in it is at least `start_line`.  The original strict bounds fail:
a body statement on the structure's own line makes the value equal to both
`start_line` and `end_line`, and a nested `try` handler line can exceed
`end_line`. -/
theorem C4_cfg_body_lines (tree : List CFG.PyStmt) (h : CFG.blockGE 0 tree = true) :
    ∀ cfg ∈ CFG.analyze tree,
      cfg.body_lines.Sorted (· < ·) ∧ cfg.body_lines.Nodup ∧
      ∀ v ∈ cfg.body_lines, cfg.start_line ≤ v := by
  intro cfg hcfg
  rw [CFG.analyze] at hcfg
  obtain ⟨hsorted, hlb⟩ := CFG.visitBlock_inv 0 tree h cfg hcfg
  exact ⟨hsorted, hsorted.nodup, hlb⟩

/-- Witness for C4: the amended invariant evaluated on a concrete two-line
program `if a:` / `    x = 1`. -/
theorem C4_cfg_body_lines_witness :
    CFG.blockGE 0 [CFG.PyStmt.ifS 1 [CFG.PyStmt.simple 2] []] = true ∧
    ∀ cfg ∈ CFG.analyze [CFG.PyStmt.ifS 1 [CFG.PyStmt.simple 2] []],
      cfg.body_lines.Sorted (· < ·) ∧ cfg.body_lines.Nodup ∧
      ∀ v ∈ cfg.body_lines, cfg.start_line ≤ v := by
  have hGE : CFG.blockGE 0 [CFG.PyStmt.ifS 1 [CFG.PyStmt.simple 2] []] = true := by
    simp [CFG.blockGE, CFG.stmtGE]
  exact ⟨hGE, C4_cfg_body_lines _ hGE⟩

/-- Counterexample for C4 as stated: on `if a: x = 1` (body statement on the
structure's own line) the single body line 1 is not strictly greater than
`start_line = 1` nor strictly less than `end_line = 1`; and on an `if`
containing a `try` whose handler body reaches line 5, body line 5 exceeds
`end_line = 3` because `_get_end_line` never inspects handler bodies. -/
theorem C4_cfg_counterexample :
    (∃ cfg ∈ CFG.analyze [CFG.PyStmt.ifS 1 [CFG.PyStmt.simple 1] []],
      ∃ v ∈ cfg.body_lines, ¬(cfg.start_line < v ∧ v < cfg.end_line)) ∧
    (∃ cfg ∈ CFG.analyze
        [CFG.PyStmt.ifS 1 [CFG.PyStmt.tryS 2 [CFG.PyStmt.simple 3]
          [[CFG.PyStmt.simple 5]] [] []] []],
      ∃ v ∈ cfg.body_lines, cfg.end_line < v) := by
  have h1 : CFG.analyze [CFG.PyStmt.ifS 1 [CFG.PyStmt.simple 1] []] =
      [{ type := "if", start_line := 1, end_line := 1, body_lines := [1],
         else_lines := [] }] := by
    simp [CFG.analyze, CFG.visitBlock, CFG.visitStmt, CFG.get_body_lines, CFG.bodyLinesAux,
      CFG.nestedLines, CFG.get_end_line, CFG.endLineBody, CFG.maxTopLevel, CFG.handlerLines,
      Util.sortedDedup, Util.insertSorted, CFG.PyStmt.lineno, CFG.PyStmt.isCtrl]
  have h2 : CFG.analyze
      [CFG.PyStmt.ifS 1 [CFG.PyStmt.tryS 2 [CFG.PyStmt.simple 3]
        [[CFG.PyStmt.simple 5]] [] []] []] =
      [{ type := "if", start_line := 1, end_line := 3, body_lines := [2, 3, 5],
         else_lines := [] },
       { type := "try", start_line := 2, end_line := 3, body_lines := [3],
         else_lines := [], except_lines := [5], finally_lines := [] }] := by
    simp [CFG.analyze, CFG.visitBlock, CFG.visitStmt, CFG.visitHandlers, CFG.get_body_lines,
      CFG.bodyLinesAux, CFG.nestedLines, CFG.get_end_line, CFG.endLineBody, CFG.maxTopLevel,
      CFG.handlerLines, Util.sortedDedup, Util.insertSorted, CFG.PyStmt.lineno, CFG.PyStmt.isCtrl]
  rw [h1, h2]
  decide

namespace PyTaint

/-- Python expression shape, as far as src/engines/static/taint_analysis.py
inspects it.  `call` carries the node's `lineno`; `const` carries the text
`repr(node.value)` would produce. -/
inductive Expr where
  | name : String → Expr
  | attr : Expr → String → Expr
  | subscript : Expr → Expr → Expr
  | call : Nat → Expr → List Expr → Expr
  | binop : Expr → Expr → Expr
  | const : String → Expr

/-- Textual abstraction of `ast.dump(node)`, the fallback branch of
`_get_node_repr`.  Only its totality matters: no claim depends on the exact
dump text. -/
def dump : Expr → String
  | .name i => "Name(id=" ++ i ++ ")"
  | .attr v a => "Attribute(value=" ++ dump v ++ ", attr=" ++ a ++ ")"
  | .subscript v s => "Subscript(value=" ++ dump v ++ ", slice=" ++ dump s ++ ")"
  | .call _ f _ => "Call(func=" ++ dump f ++ ", ...)"
  | .binop l r => "BinOp(left=" ++ dump l ++ ", right=" ++ dump r ++ ")"
  | .const s => "Constant(value=" ++ s ++ ")"

/-- Embeds `TaintAnalyzer._get_node_repr` (src/engines/static/taint_analysis.py). -/
def get_node_repr : Expr → String
  | .name i => i
  | .attr (.name v) a => v ++ "." ++ a
  | .subscript (.attr (.name x) a) _ => x ++ "." ++ a ++ "[...]"
  | .call _ (.name f) _ => f ++ "(...)"
  | .binop l r => get_node_repr l ++ " + " ++ get_node_repr r
  | .const s => s
  | e => dump e

/-- Embeds `TaintAnalyzer._is_taint_source`: `sys.argv[...]` subscripts and
`input()`/`raw_input()` calls. -/
def is_taint_source : Expr → Bool
  | .subscript (.attr (.name v) a) _ => v = "sys" && a = "argv"
  | .call _ (.name f) _ => f = "input" || f = "raw_input"
  | _ => false

/-- Embeds `TaintAnalyzer._is_taint_sink`, applied to the call's `func` node:
`os.system`/`os.popen`, `subprocess.call/run/Popen`, `eval`, `exec`. -/
def is_taint_sink_func : Expr → Option String
  | .attr (.name v) a =>
      if v = "os" then
        if a = "system" ∨ a = "popen" then some ("os." ++ a) else none
      else if v = "subprocess" then
        if a = "call" ∨ a = "run" ∨ a = "Popen" then some ("subprocess." ++ a) else none
      else none
  | .name f => if f = "eval" ∨ f = "exec" then some f else none
  | _ => none

/-- Embeds `TaintAnalyzer._get_variable_name`: a bare name, or `name.attr` as a
dotted path. -/
def get_variable_name : Expr → Option String
  | .name i => some i
  | .attr (.name v) a => some (v ++ "." ++ a)
  | _ => none

/-- One element of `TaintAnalyzer.taint_flows`.  `tainted_var` is only
present on `variable_flow` entries. -/
structure Flow where
  source : String
  sink : String
  source_line : Nat
  sink_line : Nat
  severity : String
  type : String
  tainted_var : Option String := none
  deriving Repr, DecidableEq

/-- One element of `TaintAnalyzer.taint_sources`. -/
structure SourceRec where
  source : String
  line : Nat
  tainted_var : String
  deriving Repr, DecidableEq

/-- One element of `TaintAnalyzer.taint_sinks`. -/
structure SinkRec where
  sink : String
  line : Nat
  args : List String
  deriving Repr, DecidableEq

/-- The mutable visitor state of `TaintAnalyzer`. -/
structure St where
  taint_sources : List SourceRec := []
  taint_sinks : List SinkRec := []
  taint_flows : List Flow := []
  current_tainted_vars : List String := []
  var_assignments : List (String × Nat) := []
  deriving Repr, DecidableEq

/-- Embeds `self.var_assignments[var_name] = node.lineno` (dict update, insertion
order preserved on overwrite as in Python). -/
def setAssoc (k : String) (v : Nat) : List (String × Nat) → List (String × Nat)
  | [] => [(k, v)]
  | (k', v') :: rest => if k' = k then (k, v) :: rest else (k', v') :: setAssoc k v rest

/-- Embeds `self.var_assignments.get(var_name, default)`. -/
def getAssoc (d : List (String × Nat)) (k : String) (dflt : Nat) : Nat :=
  match d with
  | [] => dflt
  | (k', v) :: rest => if k' = k then v else getAssoc rest k dflt

/-- Embeds `self.current_tainted_vars.add(var_name)` (set semantics). -/
def addVar (v : String) (s : List String) : List String :=
  if v ∈ s then s else v :: s

/-- The taint-marking loop over `node.targets` in `visit_Assign`. -/
def markTargets (ln : Nat) (valueRepr : String) : List Expr → St → St
  | [], st => st
  | t :: rest, st =>
      match get_variable_name t with
      | some v =>
          markTargets ln valueRepr rest
            { st with
                current_tainted_vars := addVar v st.current_tainted_vars,
                var_assignments := setAssoc v ln st.var_assignments,
                taint_sources := st.taint_sources ++ [⟨valueRepr, ln, v⟩] }
      | none => markTargets ln valueRepr rest st

/-- The per-argument loop of `visit_Call`: direct flows for argument nodes
that are themselves taint sources, `variable_flow` flows for arguments that
are currently tainted variables. -/
def checkArgs (sinkName : String) (ln : Nat) : List Expr → St → St
  | [], st => st
  | arg :: rest, st =>
      if is_taint_source arg then
        checkArgs sinkName ln rest
          { st with taint_flows := st.taint_flows ++
              [{ source := get_node_repr arg, sink := sinkName, source_line := ln,
                 sink_line := ln, severity := "critical", type := "direct" }] }
      else
        match get_variable_name arg with
        | some v =>
            if v ∈ st.current_tainted_vars then
              checkArgs sinkName ln rest
                { st with taint_flows := st.taint_flows ++
                    [{ source := get_node_repr arg, sink := sinkName,
                       source_line := getAssoc st.var_assignments v ln,
                       sink_line := ln, severity := "critical",
                       type := "variable_flow", tainted_var := some v }] }
            else checkArgs sinkName ln rest st
        | none => checkArgs sinkName ln rest st

mutual

/-- Embeds `ast.NodeVisitor.visit` on an expression: `visit_Call` on calls (sink
detection, then `generic_visit`), plain `generic_visit` otherwise. -/
def visitExpr (st : St) : Expr → St
  | .name _ => st
  | .const _ => st
  | .attr v _ => visitExpr st v
  | .subscript v s => visitExpr (visitExpr st v) s
  | .binop l r => visitExpr (visitExpr st l) r
  | .call ln f args =>
      let st1 :=
        match is_taint_sink_func f with
        | some sinkName =>
            let st' := { st with taint_sinks := st.taint_sinks ++
                [⟨sinkName, ln, args.map get_node_repr⟩] }
            checkArgs sinkName ln args st'
        | none => st
      visitExprList (visitExpr st1 f) args

def visitExprList (st : St) : List Expr → St
  | [] => st
  | e :: rest => visitExprList (visitExpr st e) rest

end

/-- Python statement shape used by the analyzer: assignments and expression
statements (the only statement kinds the claims' programs contain). -/
inductive Stmt where
  | assign : Nat → List Expr → Expr → Stmt
  | exprStmt : Expr → Stmt

/-- Embeds `visit_Assign` (src/engines/static/taint_analysis.py) followed by its
`generic_visit`, and the `generic_visit` of expression statements. -/
def visitStmt (st : St) : Stmt → St
  | .assign ln targets value =>
      let isTainted :=
        if is_taint_source value then true
        else
          match get_variable_name value with
          | some v => v ∈ st.current_tainted_vars
          | none => false
      let st1 := if isTainted then markTargets ln (get_node_repr value) targets st else st
      visitExpr (visitExprList st1 targets) value
  | .exprStmt e => visitExpr st e

/-- Embeds `taint_analysis.analyze`: visit the module's statements in order and
return the recorded flows. -/
def analyzeState (tree : List Stmt) : St :=
  tree.foldl visitStmt {}

/-- The value `analyze` returns: `analyzer.taint_flows`. -/
def analyze (tree : List Stmt) : List Flow :=
  (analyzeState tree).taint_flows

end PyTaint

namespace PyTaint

theorem sink_func_cases (f : Expr) (s : String) (h : is_taint_sink_func f = some s) :
    (f = .attr (.name "os") "system" ∧ s = "os.system") ∨
    (f = .attr (.name "os") "popen" ∧ s = "os.popen") ∨
    (f = .attr (.name "subprocess") "call" ∧ s = "subprocess.call") ∨
    (f = .attr (.name "subprocess") "run" ∧ s = "subprocess.run") ∨
    (f = .attr (.name "subprocess") "Popen" ∧ s = "subprocess.Popen") ∨
    (f = .name "eval" ∧ s = "eval") ∨
    (f = .name "exec" ∧ s = "exec") := by
  cases f with
  | name fn =>
      simp only [is_taint_sink_func] at h
      split at h
      · rename_i hc
        injection h with h2
        subst h2
        rcases hc with rfl | rfl
        · exact Or.inr (Or.inr (Or.inr (Or.inr (Or.inr (Or.inl ⟨rfl, rfl⟩)))))
        · exact Or.inr (Or.inr (Or.inr (Or.inr (Or.inr (Or.inr ⟨rfl, rfl⟩)))))
      · cases h
  | attr fv a =>
      cases fv with
      | name root =>
          simp only [is_taint_sink_func] at h
          split at h
          · rename_i hroot
            subst hroot
            split at h
            · rename_i ha
              injection h with h2
              subst h2
              rcases ha with rfl | rfl
              · exact Or.inl ⟨rfl, rfl⟩
              · exact Or.inr (Or.inl ⟨rfl, rfl⟩)
            · cases h
          · split at h
            · rename_i hroot hsub
              subst hsub
              split at h
              · rename_i ha
                injection h with h2
                subst h2
                rcases ha with rfl | rfl | rfl
                · exact Or.inr (Or.inr (Or.inl ⟨rfl, rfl⟩))
                · exact Or.inr (Or.inr (Or.inr (Or.inl ⟨rfl, rfl⟩)))
                · exact Or.inr (Or.inr (Or.inr (Or.inr (Or.inl ⟨rfl, rfl⟩))))
              · cases h
            · cases h
      | attr v' a' => simp [is_taint_sink_func] at h
      | subscript v' s' => simp [is_taint_sink_func] at h
      | call ln' f' args' => simp [is_taint_sink_func] at h
      | binop l' r' => simp [is_taint_sink_func] at h
      | const c' => simp [is_taint_sink_func] at h
  | subscript v' s' => simp [is_taint_sink_func] at h
  | call ln' f' args' => simp [is_taint_sink_func] at h
  | binop l' r' => simp [is_taint_sink_func] at h
  | const c' => simp [is_taint_sink_func] at h

end PyTaint

/-- C2: for a program assigning an argv taint source to variable `v` on line
`L1` and calling any recognized sink with `v` in its argument list on a later
line `L2 ≥ L1`, the Python taint analyzer emits exactly one TaintFlow, of
kind `variable_flow`, with `source_line = L1`, `sink_line = L2` and the
sink's severity (every Python sink rule carries severity `critical`). -/
theorem C2_taint_variable_flow (v : String) (L1 L2 : Nat) (f : PyTaint.Expr) (s : String)
    (hL : L1 ≤ L2) (hs : PyTaint.is_taint_sink_func f = some s) :
    PyTaint.analyze
      [PyTaint.Stmt.assign L1 [PyTaint.Expr.name v]
         (PyTaint.Expr.subscript (PyTaint.Expr.attr (PyTaint.Expr.name "sys") "argv")
           (PyTaint.Expr.const "1")),
       PyTaint.Stmt.exprStmt (PyTaint.Expr.call L2 f [PyTaint.Expr.name v])] =
      [{ source := v, sink := s, source_line := L1, sink_line := L2,
         severity := "critical", type := "variable_flow", tainted_var := some v }] := by
  rcases PyTaint.sink_func_cases f s hs with
      ⟨rfl, rfl⟩ | ⟨rfl, rfl⟩ | ⟨rfl, rfl⟩ | ⟨rfl, rfl⟩ | ⟨rfl, rfl⟩ | ⟨rfl, rfl⟩ | ⟨rfl, rfl⟩ <;>
    simp [PyTaint.analyze, PyTaint.analyzeState, PyTaint.visitStmt, PyTaint.visitExpr,
      PyTaint.visitExprList, PyTaint.checkArgs, PyTaint.markTargets, PyTaint.is_taint_source,
      PyTaint.is_taint_sink_func, PyTaint.get_variable_name, PyTaint.get_node_repr,
      PyTaint.addVar, PyTaint.setAssoc, PyTaint.getAssoc]

/-- Witness for C2 at `user_input = sys.argv[1]` (line 3),
`os.system(user_input)` (line 4). -/
theorem C2_taint_variable_flow_witness :
    (3 : Nat) ≤ 4 ∧
    PyTaint.is_taint_sink_func (PyTaint.Expr.attr (PyTaint.Expr.name "os") "system")
      = some "os.system" ∧
    PyTaint.analyze
      [PyTaint.Stmt.assign 3 [PyTaint.Expr.name "user_input"]
         (PyTaint.Expr.subscript (PyTaint.Expr.attr (PyTaint.Expr.name "sys") "argv")
           (PyTaint.Expr.const "1")),
       PyTaint.Stmt.exprStmt (PyTaint.Expr.call 4
         (PyTaint.Expr.attr (PyTaint.Expr.name "os") "system") [PyTaint.Expr.name "user_input"])] =
      [{ source := "user_input", sink := "os.system", source_line := 3, sink_line := 4,
         severity := "critical", type := "variable_flow", tainted_var := some "user_input" }] :=
  ⟨by decide, rfl,
    C2_taint_variable_flow "user_input" 3 4
      (PyTaint.Expr.attr (PyTaint.Expr.name "os") "system") "os.system" (by decide) rfl⟩

namespace GoTaint

/-- Embeds `\w` of Python's `re` (ASCII range, which is all the analyzed Go
identifiers use). -/
def isWordChar (c : Char) : Bool :=
  c.isAlphanum || c = '_'

/-- Does `s` start with `p`? -/
def startsWith : List Char → List Char → Bool
  | _, [] => true
  | [], _ :: _ => false
  | c :: cs, p :: ps => c = p && startsWith cs ps

/-- Python `s.find(pat)` relative to offset `i` (internal helper). -/
def findSubAux (pat : List Char) : List Char → Nat → Option Nat
  | [], i => if pat = [] then some i else none
  | c :: rest, i =>
      if startsWith (c :: rest) pat then some i else findSubAux pat rest (i + 1)

/-- Python `s.find(pat)`: index of the leftmost occurrence, `none` for -1. -/
def findSub (s pat : List Char) : Option Nat :=
  findSubAux pat s 0

/-- Python `pat in s`. -/
def containsSub (s pat : List Char) : Bool :=
  (findSub s pat).isSome

/-- Python `s.strip()` (whitespace trimmed at both ends). -/
def stripChars (s : List Char) : List Char :=
  ((s.dropWhile Char.isWhitespace).reverse.dropWhile Char.isWhitespace).reverse

/-- The `while True` loop of `_strip_comments`
(src/engines/static/go_taint_analysis.py): removes `/* ... */` block-comment
text from one line, tracking whether a block comment is open; returns the
remaining text and the new block state.  Fuel is the line length, enough
because every iteration consumes at least two characters. -/
def stripLineLoop : Nat → Bool → List Char → List Char × Bool
  | 0, inBlock, current => (current, inBlock)
  | fuel + 1, true, current =>
      match findSub current ['*', '/'] with
      | none => ([], true)
      | some e => stripLineLoop fuel false (current.drop (e + 2))
  | fuel + 1, false, current =>
      match findSub current ['/', '*'] with
      | some st =>
          (match findSub (current.drop (st + 2)) ['*', '/'] with
           | none => (current.take st, true)
           | some erel =>
               stripLineLoop fuel false (current.take st ++ current.drop (st + 2 + erel + 2)))
      | none => (current, false)

/-- Embeds `current.split('//', 1)[0]`. -/
def dropLineComment (s : List Char) : List Char :=
  match findSub s ['/', '/'] with
  | some i => s.take i
  | none => s

/-- One iteration of the `for line in lines` loop of `_strip_comments`. -/
def stripCommentsLine (inBlock : Bool) (line : List Char) : List Char × Bool :=
  let (cur, ib) := stripLineLoop (line.length + 1) inBlock line
  (dropLineComment cur, ib)

/-- Embeds `_strip_comments` over all lines, threading the block-comment state. -/
def stripCommentsAux (inBlock : Bool) : List (List Char) → List (List Char)
  | [] => []
  | l :: rest =>
      let (c, ib) := stripCommentsLine inBlock l
      c :: stripCommentsAux ib rest

/-- The regex `:=|(?<![=!<>])=(?![=])` of `_extract_assigned_vars`, searched
left to right: either `:=`, or a lone `=` not preceded by `=!<>` and not
followed by `=`.  Returns (start, end) of the leftmost match. -/
def findAssignOpAux (prev : Option Char) : List Char → Nat → Option (Nat × Nat)
  | [], _ => none
  | ':' :: '=' :: _, i => some (i, i + 2)
  | '=' :: rest, i =>
      if (match prev with
          | some p => p = '=' || p = '!' || p = '<' || p = '>'
          | none => false) then
        findAssignOpAux (some '=') rest (i + 1)
      else
        match rest with
        | '=' :: _ => findAssignOpAux (some '=') rest (i + 1)
        | _ => some (i, i + 1)
  | c :: rest, i => findAssignOpAux (some c) rest (i + 1)

def findAssignOp (s : List Char) : Option (Nat × Nat) :=
  findAssignOpAux none s 0

/-- Embeds `re.sub(r'^KEYWORD\s+', '', lhs)` for one keyword: strip the keyword and
the following whitespace run when the line starts with them. -/
def tryStripKw (kw : List Char) (l : List Char) : Option (List Char) :=
  if startsWith l kw then
    let rest := l.drop kw.length
    match rest with
    | c :: _ => if c.isWhitespace then some (rest.dropWhile Char.isWhitespace) else none
    | [] => none
  else none

/-- Embeds `re.sub(r'^(if|for|switch)\s+', '', lhs)`. -/
def subKeywordPfx (l : List Char) : List Char :=
  match tryStripKw ['i', 'f'] l with
  | some r => r
  | none =>
      match tryStripKw ['f', 'o', 'r'] l with
      | some r => r
      | none =>
          match tryStripKw ['s', 'w', 'i', 't', 'c', 'h'] l with
          | some r => r
          | none => l

/-- Embeds `lhs.replace(pat, '')` for a non-empty pattern `p :: ps`: drop every
non-overlapping occurrence, scanning left to right. -/
def removeAll (p : Char) (ps : List Char) : List Char → List Char
  | [] => []
  | c :: rest =>
      if startsWith (c :: rest) (p :: ps) then removeAll p ps (rest.drop ps.length)
      else c :: removeAll p ps rest
  termination_by l => l.length
  decreasing_by
    · simp only [List.length_drop, List.length_cons]
      omega
    · simp only [List.length_cons]
      omega

/-- Embeds `re.sub(r'^var\s+', '', lhs)`. -/
def subVarPfx (l : List Char) : List Char :=
  match tryStripKw ['v', 'a', 'r'] l with
  | some r => r
  | none => l

/-- Embeds `lhs.split(',')`. -/
def splitOnComma : List Char → List (List Char)
  | [] => [[]]
  | ',' :: rest => [] :: splitOnComma rest
  | c :: rest =>
      match splitOnComma rest with
      | h :: t => (c :: h) :: t
      | [] => [[c]]

/-- Embeds `part.split()[0]` on an already stripped, non-empty part. -/
def firstToken (s : List Char) : List Char :=
  (s.dropWhile Char.isWhitespace).takeWhile (fun c => ¬ c.isWhitespace)

/-- Embeds `_extract_assigned_vars` (src/engines/static/go_taint_analysis.py):
split at the first assignment operator, clean the left-hand side of
`if|for|switch`, `range ` and `var ` noise, and collect the comma-separated
variable names (skipping `_`). -/
def extract_assigned_vars (line : List Char) : List (List Char) × Option (List Char) :=
  match findAssignOp line with
  | none => ([], none)
  | some (st, en) =>
      let lhs := stripChars (line.take st)
      let rhs := stripChars (line.drop en)
      let lhs := subKeywordPfx lhs
      let lhs := removeAll 'r' ['a', 'n', 'g', 'e', ' '] lhs
      let lhs := subVarPfx lhs
      let vars_found := (splitOnComma lhs).filterMap fun part =>
        let p := stripChars part
        if p = [] then none
        else
          let vn := firstToken p
          if vn = ['_'] then none else some vn
      (vars_found, some rhs)

/-- Embeds `_line_contains_var`: an occurrence of `var` in `text` not preceded by a
word character or dot and not followed by a word character (the regex
`(?<![\w\.])var(?![\w])`). -/
def containsVarAux (var : List Char) : Option Char → List Char → Bool
  | _, [] => false
  | prev, c :: rest =>
      (startsWith (c :: rest) var
        && (match prev with | none => true | some p => ¬ (isWordChar p || p = '.'))
        && (match (c :: rest).drop var.length with
            | [] => true
            | nc :: _ => ¬ isWordChar nc))
      || containsVarAux var (some c) rest

def line_contains_var (text var : List Char) : Bool :=
  if var = [] then false else containsVarAux var none text

end GoTaint

namespace GoTaint

/-- The fixed `taint_sources` regex list of `go_taint_analysis.analyze`.
Every pattern is a literal string once the escaped dots are read back, so
`re.search` is literal substring search. -/
def taint_sources : List String :=
  ["os.Args", "flag.String(", "flag.Int(", "flag.Bool(",
   "http.Request.FormValue(", "http.Request.PostFormValue(",
   "http.Request.Header.Get(", "c.Query(", "c.Param("]

/-- The metadata dict attached to each sink rule. -/
structure RuleInfo where
  rule_id : String
  rule_name : String
  severity : String
  deriving Repr, DecidableEq

/-- The fixed `sink_rules` table.  A pattern with an alternation group
(`(os|syscall)\.Exec\(` etc.) is represented by the list of literal strings
it can match; `re.search` tries the alternatives at each position from the
left, which `searchAlts` below reproduces. -/
def sink_rules : List (List String × RuleInfo) :=
  [(["exec.CommandContext("],
      ⟨"go_rce_exec_command", "Go RCE - exec.CommandContext", "critical"⟩),
   (["exec.Command("],
      ⟨"go_rce_exec_command", "Go RCE - exec.Command", "critical"⟩),
   (["exec.Run("],
      ⟨"go_rce_exec_command", "Go RCE - exec.Run", "critical"⟩),
   (["os.Exec(", "syscall.Exec("],
      ⟨"go_os_exec", "Go RCE - os/exec Usage", "critical"⟩),
   (["sql.DB.Query(", "sql.DB.Exec("],
      ⟨"go_sql_injection", "Go SQL Injection - String Concatenation", "high"⟩),
   (["os.OpenFile(", "os.Create(", "os.WriteFile("],
      ⟨"go_file_write", "Go File Write Operation", "medium"⟩),
   (["net.Dial("],
      ⟨"go_network_dial", "Go Network - net.Dial()", "medium"⟩)]

/-- Embeds `re.search` of an alternation of literals: leftmost occurrence wins, and
at equal positions the earlier alternative; returns the matched text
(`match.group(0)`). -/
def searchAlts (alts : List (List Char)) : List Char → Option (List Char)
  | [] => alts.find? (fun a => a = [])
  | c :: rest =>
      match alts.find? (fun a => startsWith (c :: rest) a) with
      | some a => some a
      | none => searchAlts alts rest

/-- The sink-matching loop: first rule in table order whose pattern matches
the line; returns its info and the matched text. -/
def findSinkRule (line : List Char) : Option (RuleInfo × List Char) :=
  go sink_rules
where
  go : List (List String × RuleInfo) → Option (RuleInfo × List Char)
    | [] => none
    | (pats, info) :: rest =>
        match searchAlts (pats.map String.toList) line with
        | some m => some (info, m)
        | none => go rest

/-- Embeds `any(re.search(pattern, line) for pattern in sink_patterns)`. -/
def anySinkPattern (line : List Char) : Bool :=
  sink_rules.any fun pr => (searchAlts (pr.1.map String.toList) line).isSome

/-- A `tainted_vars` value: `{'source_line': i, 'source_code': line}`. -/
structure Origin where
  source_line : Nat
  source_code : String
  deriving Repr, DecidableEq

/-- One emitted Go taint-flow dict. -/
structure GoFlow where
  source_line : Nat
  source_code : String
  sink_line : Nat
  sink_code : String
  rule_id : String
  rule_name : String
  severity : String
  line : Nat
  matched_text : String
  description : String
  deriving Repr, DecidableEq

/-- A `seen_flows` deduplication key:
`(source_line, sink_line, variable-or-"direct", rule_id)`. -/
abbrev Key := Nat × Nat × String × String

/-- The loop state of `go_taint_analysis.analyze`: the `tainted_vars` dict
(insertion ordered), the `seen_flows` key set (in insertion order) and the
`taint_flows` output list. -/
structure GoSt where
  tainted_vars : List (String × Origin) := []
  seen_flows : List Key := []
  taint_flows : List GoFlow := []
  deriving Repr, DecidableEq

/-- Dict update `tainted_vars[var] = origin` (overwrite keeps position, as
in Python). -/
def setVar (k : String) (o : Origin) : List (String × Origin) → List (String × Origin)
  | [] => [(k, o)]
  | (k', o') :: rest => if k' = k then (k, o) :: rest else (k', o') :: setVar k o rest

/-- Embeds `for var_name in assigned_vars: tainted_vars[var_name] = origin`. -/
def markVars (vars : List (List Char)) (o : Origin)
    (tv : List (String × Origin)) : List (String × Origin) :=
  match vars with
  | [] => tv
  | v :: rest => markVars rest o (setVar (String.mk v) o tv)

/-- Embeds `_find_taint_origin`: first tainted variable (dict order) whose name
occurs word-bounded in the right-hand side. -/
def find_taint_origin (rhs : List Char) : List (String × Origin) → Option Origin
  | [] => none
  | (v, o) :: rest =>
      if line_contains_var rhs v.toList then some o else find_taint_origin rhs rest

/-- The `# Variable-based flows` loop: for each tainted variable occurring
word-bounded in the line, emit one flow per unseen key. -/
def varFlowLoop (i : Nat) (lineStr : String) (line : List Char)
    (info : RuleInfo) (mtext : String) :
    List (String × Origin) → GoSt → GoSt
  | [], st => st
  | (v, origin) :: rest, st =>
      if ¬ line_contains_var line v.toList then
        varFlowLoop i lineStr line info mtext rest st
      else
        let key : Key := (origin.source_line, i, v, info.rule_id)
        if key ∈ st.seen_flows then varFlowLoop i lineStr line info mtext rest st
        else
          varFlowLoop i lineStr line info mtext rest
            { st with
                taint_flows := st.taint_flows ++
                  [{ source_line := origin.source_line,
                     source_code := origin.source_code,
                     sink_line := i, sink_code := lineStr,
                     rule_id := info.rule_id, rule_name := info.rule_name,
                     severity := info.severity, line := i,
                     matched_text := if mtext = "" then lineStr else mtext,
                     description := "Taint data from line " ++
                       toString origin.source_line ++ " flows to sink at line " ++
                       toString i }],
                seen_flows := st.seen_flows ++ [key] }

/-- The taint-marking half of the loop body of `analyze`: `sources_present
and assigned_vars` marks the assigned variables with this line as origin,
otherwise a right-hand side that references a tainted variable propagates
that variable's origin.  Only `tainted_vars` changes. -/
def taintStep (i : Nat) (line : List Char) (lineStr : String)
    (sources_present : List String) (st : GoSt) : GoSt :=
  let (assigned_vars, rhs) := extract_assigned_vars line
  if sources_present ≠ [] ∧ assigned_vars ≠ [] then
    { st with tainted_vars := markVars assigned_vars ⟨i, lineStr⟩ st.tainted_vars }
  else if assigned_vars ≠ [] ∧
      (match rhs with | some r => decide (r ≠ []) | none => false) = true then
    match find_taint_origin (rhs.getD []) st.tainted_vars with
    | some origin => { st with tainted_vars := markVars assigned_vars origin st.tainted_vars }
    | none => st
  else st

/-- The sink half of the loop body of `analyze`: `continue` when no sink rule
matches, otherwise the guarded direct-flow append followed by the
variable-flow loop. -/
def sinkStep (i : Nat) (line : List Char) (lineStr : String)
    (sources_present : List String) (st1 : GoSt) : GoSt :=
  let matchedSink := findSinkRule line
  if matchedSink = none ∧ ¬ anySinkPattern line then st1
  else
    match matchedSink with
    | none => st1
    | some (info, m) =>
        let mtext := String.mk m
        let st2 :=
          if sources_present ≠ [] then
            let key : Key := (i, i, "direct", info.rule_id)
            if key ∈ st1.seen_flows then st1
            else
              { st1 with
                  taint_flows := st1.taint_flows ++
                    [{ source_line := i, source_code := lineStr,
                       sink_line := i, sink_code := lineStr,
                       rule_id := info.rule_id, rule_name := info.rule_name,
                       severity := info.severity, line := i,
                       matched_text := if mtext = "" then lineStr else mtext,
                       description := "Taint source on line " ++ toString i ++
                         " flows to sink on line " ++ toString i }],
                  seen_flows := st1.seen_flows ++ [key] }
          else st1
        varFlowLoop i lineStr line info mtext st2.tainted_vars st2

/-- The body of `for i, raw_line in enumerate(lines, 1)` in
`go_taint_analysis.analyze`. -/
def processLine (i : Nat) (rawLine : List Char) (st : GoSt) : GoSt :=
  let line := stripChars rawLine
  if line = [] then st
  else
    let lineStr := String.mk line
    let sources_present := taint_sources.filter fun p => containsSub line p.toList
    sinkStep i line lineStr sources_present (taintStep i line lineStr sources_present st)

/-- The enumerate loop of `analyze`. -/
def processAll (i : Nat) : List (List Char) → GoSt → GoSt
  | [], st => st
  | l :: rest, st => processAll (i + 1) rest (processLine i l st)

/-- Embeds `go_taint_analysis.analyze`, starting from the comment-stripped source
lines (the file read and `parse_go_file` call are I/O; `lines =
_strip_comments(source_code.split('\n'))` is where computation starts). -/
def go_analyze_state (source_lines : List String) : GoSt :=
  processAll 1 (stripCommentsAux false (source_lines.map String.toList)) {}

/-- The list `analyze` returns. -/
def go_analyze (source_lines : List String) : List GoFlow :=
  (go_analyze_state source_lines).taint_flows

end GoTaint

namespace GoTaint

/-- Per-state dedup invariant: the recorded keys are distinct and there is
exactly one recorded key per emitted flow. -/
def DedupInv (st : GoSt) : Prop :=
  st.seen_flows.Nodup ∧ st.seen_flows.length = st.taint_flows.length

theorem dedupInv_append (st : GoSt) (k : Key) (fl : GoFlow) (h : DedupInv st)
    (hk : k ∉ st.seen_flows) :
    DedupInv { st with taint_flows := st.taint_flows ++ [fl],
                       seen_flows := st.seen_flows ++ [k] } := by
  obtain ⟨h1, h2⟩ := h
  constructor
  · simp only [List.nodup_append, List.nodup_cons, List.not_mem_nil, not_false_iff,
      List.nodup_nil, and_true, true_and]
    refine ⟨h1, fun a ha hb => ?_⟩
    rw [List.mem_singleton] at hb
    subst hb
    exact hk ha
  · simp [h2]

theorem varFlowLoop_inv (i : Nat) (lineStr : String) (line : List Char)
    (info : RuleInfo) (mtext : String) (items : List (String × Origin)) (st : GoSt)
    (h : DedupInv st) :
    DedupInv (varFlowLoop i lineStr line info mtext items st) := by
  induction items generalizing st with
  | nil => simpa [varFlowLoop] using h
  | cons p rest ih =>
      obtain ⟨v, origin⟩ := p
      simp only [varFlowLoop]
      split
      · exact ih st h
      · split
        · exact ih st h
        · rename_i hkey
          exact ih _ (dedupInv_append st _ _ h hkey)

theorem taintStep_fields (i : Nat) (line : List Char) (lineStr : String)
    (sources_present : List String) (st : GoSt) :
    (taintStep i line lineStr sources_present st).seen_flows = st.seen_flows ∧
    (taintStep i line lineStr sources_present st).taint_flows = st.taint_flows := by
  simp only [taintStep]
  split
  · exact ⟨rfl, rfl⟩
  · split
    · split
      · exact ⟨rfl, rfl⟩
      · exact ⟨rfl, rfl⟩
    · exact ⟨rfl, rfl⟩

theorem sinkStep_inv (i : Nat) (line : List Char) (lineStr : String)
    (sources_present : List String) (st1 : GoSt) (h : DedupInv st1) :
    DedupInv (sinkStep i line lineStr sources_present st1) := by
  simp only [sinkStep]
  split
  · exact h
  · split
    · exact h
    · rename_i info m heq
      apply varFlowLoop_inv
      split
      · split
        · exact h
        · rename_i hkey
          exact dedupInv_append st1 _ _ h hkey
      · exact h

theorem processLine_inv (i : Nat) (rawLine : List Char) (st : GoSt)
    (h : DedupInv st) : DedupInv (processLine i rawLine st) := by
  simp only [processLine]
  split
  · exact h
  · apply sinkStep_inv
    obtain ⟨e1, e2⟩ := taintStep_fields i (stripChars rawLine) (String.mk (stripChars rawLine))
      (taint_sources.filter fun p => containsSub (stripChars rawLine) p.toList) st
    unfold DedupInv
    rw [e1, e2]
    exact h

theorem processAll_inv (i : Nat) (ls : List (List Char)) (st : GoSt)
    (h : DedupInv st) : DedupInv (processAll i ls st) := by
  induction ls generalizing i st with
  | nil => simpa [processAll] using h
  | cons l rest ih =>
      simp only [processAll]
      exact ih (i + 1) _ (processLine_inv i l st h)

end GoTaint

/-- C5, amended: the Go taint analyzer deduplicates: its `seen_flows` set
records exactly one key `(source_line, sink_line, variable-or-"direct",
rule_id)` per emitted flow and never repeats a key, so no two emitted flows
share a deduplication key.  The Python variant performs no deduplication and
can emit two TaintFlows identical in every field when a tainted variable
occurs twice in one sink call's argument list (see the counterexample). -/
theorem C5_go_taint_dedup (source_lines : List String) :
    (GoTaint.go_analyze_state source_lines).seen_flows.Nodup ∧
    (GoTaint.go_analyze_state source_lines).seen_flows.length =
      (GoTaint.go_analyze source_lines).length :=
  GoTaint.processAll_inv 1 _ {} ⟨List.nodup_nil, rfl⟩

/-- Counterexample for C5 as stated: on the Python program
`x = sys.argv[1]` (line 1), `eval(x, x)` (line 2) the Python taint analyzer
emits the same `variable_flow` record twice — two flows with the identical
key (1, 2, "x"). -/
theorem C5_python_counterexample :
    PyTaint.analyze
      [PyTaint.Stmt.assign 1 [PyTaint.Expr.name "x"]
         (PyTaint.Expr.subscript (PyTaint.Expr.attr (PyTaint.Expr.name "sys") "argv")
           (PyTaint.Expr.const "1")),
       PyTaint.Stmt.exprStmt (PyTaint.Expr.call 2 (PyTaint.Expr.name "eval")
         [PyTaint.Expr.name "x", PyTaint.Expr.name "x"])] =
      [{ source := "x", sink := "eval", source_line := 1, sink_line := 2,
         severity := "critical", type := "variable_flow", tainted_var := some "x" },
       { source := "x", sink := "eval", source_line := 1, sink_line := 2,
         severity := "critical", type := "variable_flow", tainted_var := some "x" }] ∧
    ¬ (PyTaint.analyze
        [PyTaint.Stmt.assign 1 [PyTaint.Expr.name "x"]
           (PyTaint.Expr.subscript (PyTaint.Expr.attr (PyTaint.Expr.name "sys") "argv")
             (PyTaint.Expr.const "1")),
         PyTaint.Stmt.exprStmt (PyTaint.Expr.call 2 (PyTaint.Expr.name "eval")
           [PyTaint.Expr.name "x", PyTaint.Expr.name "x"])]).Nodup := by
  have heq : PyTaint.analyze
      [PyTaint.Stmt.assign 1 [PyTaint.Expr.name "x"]
         (PyTaint.Expr.subscript (PyTaint.Expr.attr (PyTaint.Expr.name "sys") "argv")
           (PyTaint.Expr.const "1")),
       PyTaint.Stmt.exprStmt (PyTaint.Expr.call 2 (PyTaint.Expr.name "eval")
         [PyTaint.Expr.name "x", PyTaint.Expr.name "x"])] =
      [{ source := "x", sink := "eval", source_line := 1, sink_line := 2,
         severity := "critical", type := "variable_flow", tainted_var := some "x" },
       { source := "x", sink := "eval", source_line := 1, sink_line := 2,
         severity := "critical", type := "variable_flow", tainted_var := some "x" }] := by
    simp [PyTaint.analyze, PyTaint.analyzeState, PyTaint.visitStmt, PyTaint.visitExpr,
      PyTaint.visitExprList, PyTaint.checkArgs, PyTaint.markTargets, PyTaint.is_taint_source,
      PyTaint.is_taint_sink_func, PyTaint.get_variable_name, PyTaint.get_node_repr,
      PyTaint.addVar, PyTaint.setAssoc, PyTaint.getAssoc]
  refine ⟨heq, ?_⟩
  rw [heq]
  decide

namespace Threats

/-- Python `pat in s` on strings. -/
def hasSub (s pat : String) : Bool :=
  GoTaint.containsSub s.toList pat.toList

/-- Embeds `([^:]+, rest)` split at the first colon: the forced maximal munch of the
regex piece `[^:]+`. -/
def spanNonColon (cs : List Char) : List Char × List Char :=
  (cs.takeWhile (· ≠ ':'), cs.dropWhile (· ≠ ':'))

/-- Greedy `\d+` munch. -/
def digitSpan (cs : List Char) : List Char × List Char :=
  (cs.takeWhile Char.isDigit, cs.dropWhile Char.isDigit)

/-- Embeds `int(match.group(2))` on the digit run (always succeeds on `\d+`). -/
def digitsToNat (ds : List Char) : Nat :=
  ds.foldl (fun acc c => acc * 10 + (c.toNat - '0'.toNat)) 0

/-- One attempt of the regex `([A-Za-z]:\\[^:]+|/[^:]+):(\d+)` at the current
position (used with correct escaping in threat_identifier.py): a Windows
drive path or an absolute Unix path followed by `:` and a line number.
The alternatives are distinguished by their first character, and the `[^:]+`
run is forced, so the match is deterministic.  Returns the captured number
and the rest of the input after the match. -/
def matchPathLineAt : List Char → Option (Nat × List Char)
  | '/' :: rest =>
      let (run, rest1) := spanNonColon rest
      if run = [] then none
      else
        match rest1 with
        | ':' :: rest2 =>
            let (ds, rest3) := digitSpan rest2
            if ds = [] then none else some (digitsToNat ds, rest3)
        | _ => none
  | c :: ':' :: '\\' :: rest =>
      if c.isAlpha then
        let (run, rest1) := spanNonColon rest
        if run = [] then none
        else
          match rest1 with
          | ':' :: rest2 =>
              let (ds, rest3) := digitSpan rest2
              if ds = [] then none else some (digitsToNat ds, rest3)
          | _ => none
      else none
  | _ => none

/-- Embeds `re.finditer` scan for the path:line regex: leftmost, non-overlapping. -/
def findPathLinesAux : Nat → List Char → List Nat
  | 0, _ => []
  | _, [] => []
  | fuel + 1, c :: rest =>
      match matchPathLineAt (c :: rest) with
      | some (n, after) => n :: findPathLinesAux fuel after
      | none => findPathLinesAux fuel rest

/-- All line numbers the path:line regex extracts from a log string
(as Python ints, hence non-negative). -/
def find_path_lines (s : String) : List Int :=
  (findPathLinesAux s.toList.length s.toList).map Int.ofNat

/-- A pattern-match dict, as read by threat_identifier.py:
`rule_id`, `matched_text` and `line` (`match.get('line', 0)`; an `Int` so
degenerate bundles with missing or non-positive lines are representable). -/
structure PatternMatch where
  rule_id : String
  matched_text : String
  line : Int
  deriving Repr, DecidableEq

/-- A taint-flow dict as read by threat_identifier.py. -/
structure TaintFlow where
  source : String
  sink : String
  sink_line : Int
  deriving Repr, DecidableEq

/-- A `syscalls` entry: either a dict (carried as its `str()` rendering,
which is all the code inspects) or a plain string log line. -/
inductive Syscall where
  | dict : String → Syscall
  | str : String → Syscall
  deriving Repr, DecidableEq

/-- A network-activity dict; `line` is present iff the dict has a `'line'`
key (a raw log string that may carry a stack suffix). -/
structure NetworkActivity where
  line : Option String
  deriving Repr, DecidableEq

/-- A file-activity dict as read by threat_identifier.py. -/
structure FileActivity where
  is_sensitive : Bool
  line_numbers : List Int
  deriving Repr, DecidableEq

/-- A fuzz-result dict as read by threat_identifier.py. -/
structure FuzzResult where
  crashed : Bool
  timed_out : Bool
  line_numbers : List Int
  deriving Repr, DecidableEq

/-- A memory-finding dict as read by threat_identifier.py. -/
structure MemoryFinding where
  type : String
  line_numbers : List Int
  deriving Repr, DecidableEq

/-- The aggregated bundle, restricted to the keys `identify_threats` reads. -/
structure Aggregated where
  pattern_matches : List PatternMatch := []
  taint_flows : List TaintFlow := []
  network_activities : List NetworkActivity := []
  syscalls : List Syscall := []
  fuzz_results : List FuzzResult := []
  file_activities : List FileActivity := []
  memory_findings : List MemoryFinding := []
  deriving Repr, DecidableEq

/-- An entry of a threat's `evidence` list. -/
inductive Evidence where
  | match_ : PatternMatch → Evidence
  | flow : TaintFlow → Evidence
  | syscall : Syscall → Evidence
  | logEntry : String → Evidence
  | network : NetworkActivity → Evidence
  | netLog : String → Evidence
  | fileAct : FileActivity → Evidence
  | fuzz : FuzzResult → Evidence
  | memory : MemoryFinding → Evidence
  deriving Repr, DecidableEq

/-- The line numbers one evidence entry contributes, exactly as the
corresponding loop of `identify_threats` extracts them. -/
def evidenceLines : Evidence → List Int
  | .match_ m => [m.line]
  | .flow f => [f.sink_line]
  | .syscall _ => []
  | .logEntry t => find_path_lines t
  | .network n => (match n.line with | some ls => find_path_lines ls | none => [])
  | .netLog t => find_path_lines t
  | .fileAct a => a.line_numbers
  | .fuzz r => r.line_numbers
  | .memory m => m.line_numbers

/-- A threat dict. -/
structure Threat where
  threat_type : String
  severity : String
  description : String
  evidence : List Evidence
  line_numbers : List Int
  deriving Repr, DecidableEq

/-- The common append pattern of `identify_threats`: a category produces one
threat iff its evidence list is non-empty, with
`line_numbers = sorted(set([l for l in lines if l > 0]))`. -/
def buildThreat (ttype sev desc : String) (ev : List Evidence) (lines : List Int) :
    List Threat :=
  if ev = [] then []
  else
    [{ threat_type := ttype, severity := sev, description := desc, evidence := ev,
       line_numbers := Util.sortedDedup (lines.filter (0 < ·)) }]

/-- RCE evidence: pattern matches with `rce_` ids or `os.system` text, taint
flows into `os.system`/`subprocess`, and syscall entries mentioning them
(the evidence and line lists are appended pairwise in the same pass over
each input list). -/
def rceEvidence (a : Aggregated) : List Evidence :=
  ((a.pattern_matches.filter fun m =>
      hasSub m.rule_id "rce_" || hasSub m.matched_text "os.system").map .match_)
  ++ ((a.taint_flows.filter fun f =>
      f.sink.startsWith "os.system" || hasSub f.sink "subprocess").map .flow)
  ++ (a.syscalls.filterMap fun s =>
      match s with
      | .dict t =>
          if hasSub t "os.system" || hasSub t "subprocess" then some (.syscall (.dict t))
          else none
      | .str t =>
          if hasSub t "os.system" || hasSub t "subprocess" then some (.logEntry t)
          else none)

def rceLines (a : Aggregated) : List Int :=
  ((a.pattern_matches.filter fun m =>
      hasSub m.rule_id "rce_" || hasSub m.matched_text "os.system").map (·.line))
  ++ ((a.taint_flows.filter fun f =>
      f.sink.startsWith "os.system" || hasSub f.sink "subprocess").map (·.sink_line))
  ++ (a.syscalls.flatMap fun s =>
      match s with
      | .dict _ => []
      | .str t =>
          if hasSub t "os.system" || hasSub t "subprocess" then find_path_lines t
          else [])

/-- Command-injection evidence: flows from `sys.argv` to `os.system`. -/
def cmdEvidence (a : Aggregated) : List Evidence :=
  (a.taint_flows.filter fun f =>
      f.source.startsWith "sys.argv" && f.sink.startsWith "os.system").map .flow

def cmdLines (a : Aggregated) : List Int :=
  (a.taint_flows.filter fun f =>
      f.source.startsWith "sys.argv" && f.sink.startsWith "os.system").map (·.sink_line)

/-- Pattern-match-only categories (WebShell, Backdoor, SQL Injection, File
Operation Risk, and the static part of Network Exfiltration): matches whose
rule id contains the given token. -/
def idEvidence (a : Aggregated) (token : String) : List Evidence :=
  (a.pattern_matches.filter fun m => hasSub m.rule_id token).map .match_

def idLines (a : Aggregated) (token : String) : List Int :=
  (a.pattern_matches.filter fun m => hasSub m.rule_id token).map (·.line)

/-- Network evidence: `network_` pattern matches, every dynamic network
activity, and — only when there are no network activities — `[ALERT]
NETWORK:` syscall strings. -/
def networkEvidence (a : Aggregated) : List Evidence :=
  idEvidence a "network_"
  ++ (a.network_activities.map .network)
  ++ (if a.network_activities = [] then
        a.syscalls.filterMap fun s =>
          match s with
          | .str t => if hasSub t "[ALERT] NETWORK:" then some (.netLog t) else none
          | .dict _ => none
      else [])

def networkLines (a : Aggregated) : List Int :=
  idLines a "network_"
  ++ (a.network_activities.flatMap fun n =>
      match n.line with
      | some ls => find_path_lines ls
      | none => [])
  ++ (if a.network_activities = [] then
        a.syscalls.flatMap fun s =>
          match s with
          | .str t => if hasSub t "[ALERT] NETWORK:" then find_path_lines t else []
          | .dict _ => []
      else [])

def sensitiveEvidence (a : Aggregated) : List Evidence :=
  (a.file_activities.filter (·.is_sensitive)).map .fileAct

def sensitiveLines (a : Aggregated) : List Int :=
  (a.file_activities.filter (·.is_sensitive)).flatMap (·.line_numbers)

def crashEvidence (a : Aggregated) : List Evidence :=
  (a.fuzz_results.filter fun r => r.crashed && !r.timed_out).map .fuzz

def crashLines (a : Aggregated) : List Int :=
  (a.fuzz_results.filter fun r => r.crashed && !r.timed_out).flatMap (·.line_numbers)

def memoryEvidence (a : Aggregated) : List Evidence :=
  a.memory_findings.map .memory

def memoryLines (a : Aggregated) : List Int :=
  a.memory_findings.flatMap (·.line_numbers)

/-- Embeds `identify_threats` (src/engines/analysis/threat_identifier.py): the ten
guarded category blocks, in source order. -/
def identify_threats (a : Aggregated) : List Threat :=
  buildThreat "RCE" "critical"
    "Remote code execution detected via os.system/subprocess calls"
    (rceEvidence a) (rceLines a)
  ++ buildThreat "Command Injection" "critical"
    "Command injection detected: user input (sys.argv) flows to os.system without sanitization"
    (cmdEvidence a) (cmdLines a)
  ++ buildThreat "WebShell" "critical"
    "WebShell detected: usage of eval/exec/__import__/compile functions"
    (idEvidence a "webshell_") (idLines a "webshell_")
  ++ buildThreat "Backdoor" "high"
    "Backdoor detected: hardcoded passwords, secret keys, or obfuscated code"
    (idEvidence a "backdoor_") (idLines a "backdoor_")
  ++ buildThreat "SQL Injection" "high"
    "SQL injection vulnerability detected: unsafe string concatenation in SQL queries"
    (idEvidence a "sql_injection") (idLines a "sql_injection")
  ++ buildThreat "Network Exfiltration" "medium"
    "Network connection activity detected: potential data exfiltration"
    (networkEvidence a) (networkLines a)
  ++ buildThreat "File Operation Risk" "medium"
    "Risky file operations detected: path traversal or sensitive file access"
    (idEvidence a "file_") (idLines a "file_")
  ++ buildThreat "Sensitive File Access" "high"
    "Sensitive file activity detected during execution"
    (sensitiveEvidence a) (sensitiveLines a)
  ++ buildThreat "Runtime Vulnerability" "medium"
    "Runtime crashes detected during fuzzing (may indicate input validation issues)"
    (crashEvidence a) (crashLines a)
  ++ buildThreat "Memory Injection"
    (if a.memory_findings.any (fun f => f.type = "memory_api") then "high" else "medium")
    "Runtime code execution or memory API usage detected"
    (memoryEvidence a) (memoryLines a)

end Threats

namespace Threats

theorem flatMap_match (l : List PatternMatch) :
    (l.map Evidence.match_).flatMap evidenceLines = l.map (·.line) := by
  induction l <;> simp_all [evidenceLines]

theorem flatMap_flow (l : List TaintFlow) :
    (l.map Evidence.flow).flatMap evidenceLines = l.map (·.sink_line) := by
  induction l <;> simp_all [evidenceLines]

theorem flatMap_network (l : List NetworkActivity) :
    (l.map Evidence.network).flatMap evidenceLines =
      l.flatMap (fun n => match n.line with | some ls => find_path_lines ls | none => []) := by
  induction l <;> simp_all [evidenceLines]

theorem flatMap_fileAct (l : List FileActivity) :
    (l.map Evidence.fileAct).flatMap evidenceLines = l.flatMap (·.line_numbers) := by
  induction l <;> simp_all [evidenceLines]

theorem flatMap_fuzz (l : List FuzzResult) :
    (l.map Evidence.fuzz).flatMap evidenceLines = l.flatMap (·.line_numbers) := by
  induction l <;> simp_all [evidenceLines]

theorem flatMap_memory (l : List MemoryFinding) :
    (l.map Evidence.memory).flatMap evidenceLines = l.flatMap (·.line_numbers) := by
  induction l <;> simp_all [evidenceLines]

theorem flatMap_sysRce (ss : List Syscall) :
    ((ss.filterMap fun s =>
        match s with
        | .dict t =>
            if hasSub t "os.system" || hasSub t "subprocess" then
              some (Evidence.syscall (.dict t))
            else none
        | .str t =>
            if hasSub t "os.system" || hasSub t "subprocess" then
              some (Evidence.logEntry t)
            else none).flatMap evidenceLines) =
      ss.flatMap fun s =>
        match s with
        | .dict _ => []
        | .str t =>
            if hasSub t "os.system" || hasSub t "subprocess" then find_path_lines t
            else [] := by
  induction ss with
  | nil => simp
  | cons s rest ih =>
      cases s with
      | dict t =>
          by_cases hc : (hasSub t "os.system" || hasSub t "subprocess") = true <;>
            simp_all [List.filterMap_cons, evidenceLines]
      | str t =>
          by_cases hc : (hasSub t "os.system" || hasSub t "subprocess") = true <;>
            simp_all [List.filterMap_cons, evidenceLines]

theorem flatMap_sysNet (ss : List Syscall) :
    ((ss.filterMap fun s =>
        match s with
        | .str t => if hasSub t "[ALERT] NETWORK:" then some (Evidence.netLog t) else none
        | .dict _ => none).flatMap evidenceLines) =
      ss.flatMap fun s =>
        match s with
        | .str t => if hasSub t "[ALERT] NETWORK:" then find_path_lines t else []
        | .dict _ => [] := by
  induction ss with
  | nil => simp
  | cons s rest ih =>
      cases s with
      | dict t => simp_all
      | str t =>
          by_cases hc : hasSub t "[ALERT] NETWORK:" = true <;>
            simp_all [List.filterMap_cons, evidenceLines]

theorem rce_lines_eq (a : Aggregated) :
    rceLines a = (rceEvidence a).flatMap evidenceLines := by
  simp only [rceLines, rceEvidence, List.flatMap_append, flatMap_match, flatMap_flow,
    flatMap_sysRce]

theorem cmd_lines_eq (a : Aggregated) :
    cmdLines a = (cmdEvidence a).flatMap evidenceLines := by
  simp only [cmdLines, cmdEvidence, flatMap_flow]

theorem id_lines_eq (a : Aggregated) (token : String) :
    idLines a token = (idEvidence a token).flatMap evidenceLines := by
  simp only [idLines, idEvidence, flatMap_match]

theorem network_lines_eq (a : Aggregated) :
    networkLines a = (networkEvidence a).flatMap evidenceLines := by
  simp only [networkLines, networkEvidence, List.flatMap_append, flatMap_network,
    id_lines_eq]
  split
  · rw [flatMap_sysNet]
  · simp

theorem sensitive_lines_eq (a : Aggregated) :
    sensitiveLines a = (sensitiveEvidence a).flatMap evidenceLines := by
  simp only [sensitiveLines, sensitiveEvidence, flatMap_fileAct]

theorem crash_lines_eq (a : Aggregated) :
    crashLines a = (crashEvidence a).flatMap evidenceLines := by
  simp only [crashLines, crashEvidence, flatMap_fuzz]

theorem memory_lines_eq (a : Aggregated) :
    memoryLines a = (memoryEvidence a).flatMap evidenceLines := by
  simp only [memoryLines, memoryEvidence, flatMap_memory]

/-- Everything a threat emitted by one category block satisfies, provided the
block's line list is the evidence-wise concatenation of extracted lines. -/
theorem buildThreat_mem (t s d : String) (ev : List Evidence) (lines : List Int)
    (th : Threat) (hmem : th ∈ buildThreat t s d ev lines)
    (hl : lines = ev.flatMap evidenceLines) :
    th.threat_type = t ∧ th.evidence ≠ [] ∧
    th.line_numbers =
      Util.sortedDedup ((th.evidence.flatMap evidenceLines).filter (0 < ·)) := by
  simp only [buildThreat] at hmem
  split at hmem
  · simp at hmem
  · rename_i hev
    rw [List.mem_singleton] at hmem
    subst hmem
    exact ⟨rfl, hev, by rw [hl]⟩

theorem mem_identify_threats (a : Aggregated) (th : Threat)
    (h : th ∈ identify_threats a) :
    th.evidence ≠ [] ∧
    th.line_numbers =
      Util.sortedDedup ((th.evidence.flatMap evidenceLines).filter (0 < ·)) := by
  simp only [identify_threats, List.mem_append] at h
  rcases h with ((((((((h | h) | h) | h) | h) | h) | h) | h) | h) | h
  · exact (buildThreat_mem _ _ _ _ _ th h (rce_lines_eq a)).2
  · exact (buildThreat_mem _ _ _ _ _ th h (cmd_lines_eq a)).2
  · exact (buildThreat_mem _ _ _ _ _ th h (id_lines_eq a "webshell_")).2
  · exact (buildThreat_mem _ _ _ _ _ th h (id_lines_eq a "backdoor_")).2
  · exact (buildThreat_mem _ _ _ _ _ th h (id_lines_eq a "sql_injection")).2
  · exact (buildThreat_mem _ _ _ _ _ th h (network_lines_eq a)).2
  · exact (buildThreat_mem _ _ _ _ _ th h (id_lines_eq a "file_")).2
  · exact (buildThreat_mem _ _ _ _ _ th h (sensitive_lines_eq a)).2
  · exact (buildThreat_mem _ _ _ _ _ th h (crash_lines_eq a)).2
  · exact (buildThreat_mem _ _ _ _ _ th h (memory_lines_eq a)).2

theorem buildThreat_types (t s d : String) (ev : List Evidence) (lines : List Int) :
    List.Sublist ((buildThreat t s d ev lines).map (·.threat_type)) [t] := by
  simp only [buildThreat]
  split
  · exact List.nil_sublist _
  · simp only [List.map_cons, List.map_nil]
    exact List.Sublist.refl _

set_option maxHeartbeats 1600000 in
theorem identify_threats_types_nodup (a : Aggregated) :
    ((identify_threats a).map (·.threat_type)).Nodup := by
  have hsub : List.Sublist ((identify_threats a).map (·.threat_type))
      (["RCE"] ++ ["Command Injection"] ++ ["WebShell"] ++ ["Backdoor"] ++
       ["SQL Injection"] ++ ["Network Exfiltration"] ++ ["File Operation Risk"] ++
       ["Sensitive File Access"] ++ ["Runtime Vulnerability"] ++ ["Memory Injection"]) := by
    simp only [identify_threats, List.map_append]
    exact List.Sublist.append (List.Sublist.append (List.Sublist.append
      (List.Sublist.append (List.Sublist.append (List.Sublist.append
        (List.Sublist.append (List.Sublist.append (List.Sublist.append
          (buildThreat_types _ _ _ _ _) (buildThreat_types _ _ _ _ _))
          (buildThreat_types _ _ _ _ _)) (buildThreat_types _ _ _ _ _))
          (buildThreat_types _ _ _ _ _)) (buildThreat_types _ _ _ _ _))
          (buildThreat_types _ _ _ _ _)) (buildThreat_types _ _ _ _ _))
          (buildThreat_types _ _ _ _ _)) (buildThreat_types _ _ _ _ _)
  exact hsub.nodup (by decide)

end Threats

/-- C3, amended: for every aggregated bundle the threat identifier emits at
most one Threat per category (the emitted threat types are pairwise
distinct), never emits a threat with empty evidence (a category with zero
evidence is omitted), and each threat's `line_numbers` is the sorted,
duplicate-free union of the *strictly positive* line numbers its evidence
entries carry — evidence lines that are zero or negative are dropped by the
`l > 0` filter, so the unrestricted union claimed originally does not hold. -/
theorem C3_threat_identifier (a : Threats.Aggregated) :
    ((Threats.identify_threats a).map (·.threat_type)).Nodup ∧
    ∀ th ∈ Threats.identify_threats a,
      th.evidence ≠ [] ∧
      th.line_numbers =
        Util.sortedDedup ((th.evidence.flatMap Threats.evidenceLines).filter (0 < ·)) :=
  ⟨Threats.identify_threats_types_nodup a,
   fun th h => Threats.mem_identify_threats a th h⟩

/-- Counterexample for C3 as stated: a bundle holding one RCE pattern match
whose `line` is 0 produces an RCE threat whose `line_numbers` omits the 0, so
`line_numbers` is not the sorted deduplicated union of the evidences' line
numbers (which would be `[0]`). -/
theorem C3_threat_identifier_counterexample :
    ∃ th ∈ Threats.identify_threats
        { pattern_matches := [⟨"rce_eval", "", 0⟩] },
      th.line_numbers ≠ Util.sortedDedup (th.evidence.flatMap Threats.evidenceLines) := by
  decide

/-- C10: every Threat the identifier produces has only strictly positive line
numbers; evidence with a zero (or negative) extracted line number still
contributes its evidence entry but no line number, as the concrete zero-line
bundle in the second conjunct shows. -/
theorem C10_threat_lines_positive (a : Threats.Aggregated) :
    (∀ th ∈ Threats.identify_threats a, ∀ v ∈ th.line_numbers, 0 < v) ∧
    (∃ th ∈ Threats.identify_threats
        { pattern_matches := [⟨"rce_os", "os.system(cmd)", 0⟩] },
      th.evidence ≠ [] ∧ th.line_numbers = []) := by
  constructor
  · intro th hth v hv
    obtain ⟨-, hln⟩ := Threats.mem_identify_threats a th hth
    rw [hln, Util.mem_sortedDedup] at hv
    exact of_decide_eq_true (List.mem_filter.mp hv).2
  · decide

namespace PatternMatcher

/-- The compiled form of a rule's regex pattern (`re.compile(pattern)`):
literal characters, `.`, character classes, concatenation, alternation and
the greedy quantifiers `*`, `+`, `?` — the constructs the repository's rule
patterns use. -/
inductive Regex where
  | epsilon : Regex
  | chr : Char → Regex
  | anyChar : Regex
  | cls : Bool → List Char → Regex
  | seq : Regex → Regex → Regex
  | alt : Regex → Regex → Regex
  | star : Regex → Regex
  | plus : Regex → Regex
  | opt : Regex → Regex
  deriving Repr, DecidableEq

/-- Candidate match lengths of a regex at the start of `s`, in Python's
backtracking preference order (left alternative first, greedy quantifiers
longest first).  `fuel` bounds the recursion depth; the top-level callers
pass a generous bound, and no claim depends on the exact bound. -/
def lens : Nat → Regex → List Char → List Nat
  | 0, _, _ => []
  | fuel + 1, r, s =>
      match r with
      | .epsilon => [0]
      | .chr c =>
          match s with
          | [] => []
          | x :: _ => if x = c then [1] else []
      | .anyChar =>
          match s with
          | [] => []
          | x :: _ => if x = '\n' then [] else [1]
      | .cls neg cs =>
          match s with
          | [] => []
          | x :: _ => if cs.contains x ≠ neg then [1] else []
      | .seq r1 r2 =>
          (lens fuel r1 s).flatMap fun n1 =>
            (lens fuel r2 (s.drop n1)).map (n1 + ·)
      | .alt r1 r2 => lens fuel r1 s ++ lens fuel r2 s
      | .star r1 =>
          (((lens fuel r1 s).filter (0 < ·)).flatMap fun n1 =>
            (lens fuel (.star r1) (s.drop n1)).map (n1 + ·)) ++ [0]
      | .plus r1 =>
          (lens fuel r1 s).flatMap fun n1 =>
            (lens fuel (.star r1) (s.drop n1)).map (n1 + ·)
      | .opt r1 => lens fuel r1 s ++ [0]

/-- Structural size of a regex, used only to budget engine fuel. -/
def Regex.size : Regex → Nat
  | .epsilon | .chr _ | .anyChar | .cls _ _ => 1
  | .seq r1 r2 | .alt r1 r2 => r1.size + r2.size + 1
  | .star r1 | .plus r1 | .opt r1 => r1.size + 1

/-- Recursion-depth bound for the engine on this input. -/
def regexFuel (r : Regex) (s : List Char) : Nat :=
  (r.size + 2) * (s.length + 2)

/-- The length of the match `re` would report at this position (first choice
of the backtracking order), if any. -/
def matchLen (r : Regex) (s : List Char) : Option Nat :=
  (lens (regexFuel r s) r s).head?

/-- Embeds `regex.finditer(line)` scan from offset `i`: leftmost matches,
non-overlapping, advancing one position past an empty match. -/
def finditerAux : Nat → Regex → List Char → Nat → List (Nat × List Char)
  | 0, _, _, _ => []
  | fuel + 1, r, s, i =>
      match matchLen r s with
      | some 0 =>
          (i, []) ::
            (match s with
             | [] => []
             | _ :: rest => finditerAux fuel r rest (i + 1))
      | some (n + 1) => (i, s.take (n + 1)) :: finditerAux fuel r (s.drop (n + 1)) (i + n + 1)
      | none =>
          match s with
          | [] => []
          | _ :: rest => finditerAux fuel r rest (i + 1)

/-- Embeds `regex.finditer(line)`: list of (start offset, matched text). -/
def finditer (r : Regex) (s : List Char) : List (Nat × List Char) :=
  finditerAux (s.length + 1) r s 0

/-- A rule dict from rules.yaml, as read by `match_patterns`.  `pattern` is
the compiled regex; `none` models an empty pattern string or one
`re.compile` rejects — in both cases the source skips the rule. -/
structure Rule where
  id : String
  name : String
  pattern : Option Regex
  severity : String
  description : String
  deriving Repr, DecidableEq

/-- One produced match dict. -/
structure PMatch where
  rule_id : String
  rule_name : String
  severity : String
  line : Nat
  matched_text : String
  description : String
  context : String
  col_offset : Nat
  deriving Repr, DecidableEq

/-- Embeds `'\n'.join(lines[max(0, line_num - 2):min(len(lines), line_num + 2)])`. -/
def contextOf (lines : List String) (line_num : Nat) : String :=
  String.intercalate "\n" ((lines.take (min lines.length (line_num + 2))).drop (line_num - 2))

/-- Embeds `enumerate(lines, start=i)`. -/
def enumFrom {α : Type} (i : Nat) : List α → List (Nat × α)
  | [] => []
  | x :: rest => (i, x) :: enumFrom (i + 1) rest

/-- The unsorted `matches` list `match_patterns` accumulates: for each rule
with a usable pattern, for each line, one entry per `finditer` occurrence. -/
def rawMatches (lines : List String) (rules : List Rule) : List PMatch :=
  rules.flatMap fun rule =>
    match rule.pattern with
    | none => []
    | some rgx =>
        (enumFrom 1 lines).flatMap fun le =>
          (finditer rgx le.2.toList).map fun oc =>
            { rule_id := rule.id, rule_name := rule.name, severity := rule.severity,
              line := le.1, matched_text := String.mk oc.2,
              description := rule.description,
              context := contextOf lines le.1, col_offset := oc.1 }

/-- Embeds `matches.sort(key=lambda x: x['line'])` — Python's stable sort, rendered
as stable insertion sort by line. -/
def insertByLine (m : PMatch) : List PMatch → List PMatch
  | [] => [m]
  | x :: xs => if m.line < x.line then m :: x :: xs else x :: insertByLine m xs

def sortByLine (l : List PMatch) : List PMatch :=
  l.foldr insertByLine []

/-- Embeds `pattern_matcher.match_patterns`. -/
def match_patterns (source_code : String) (rules : List Rule) : List PMatch :=
  if source_code = "" ∨ rules = [] then []
  else sortByLine (rawMatches (source_code.splitOn "\n") rules)

end PatternMatcher

namespace PatternMatcher

theorem finditerAux_infix (fuel : Nat) (r : Regex) :
    ∀ (s : List Char) (i : Nat), ∀ e ∈ finditerAux fuel r s i, e.2 <:+: s := by
  induction fuel with
  | zero => intro s i e he; simp [finditerAux] at he
  | succ fuel ih =>
      intro s i e he
      simp only [finditerAux] at he
      cases hml : matchLen r s with
      | none =>
          simp only [hml] at he
          cases s with
          | nil => simp at he
          | cons c rest =>
              simp only [] at he
              exact List.infix_cons (ih rest (i + 1) e he)
      | some n =>
          cases n with
          | zero =>
              simp only [hml] at he
              rcases List.mem_cons.mp he with rfl | he
              · exact List.nil_infix
              · cases s with
                | nil => simp at he
                | cons c rest =>
                    simp only [] at he
                    exact List.infix_cons (ih rest (i + 1) e he)
          | succ n =>
              simp only [hml] at he
              rcases List.mem_cons.mp he with rfl | he
              · exact (List.take_prefix _ s).isInfix
              · exact ((ih _ _ e he).trans (List.drop_suffix _ s).isInfix)

theorem insertByLine_perm (m : PMatch) (l : List PMatch) :
    (insertByLine m l).Perm (m :: l) := by
  induction l with
  | nil => simp [insertByLine]
  | cons x xs ih =>
      simp only [insertByLine]
      split
      · exact List.Perm.refl _
      · exact (ih.cons x).trans (List.Perm.swap m x xs)

theorem sortByLine_perm (l : List PMatch) : (sortByLine l).Perm l := by
  induction l with
  | nil => simp [sortByLine]
  | cons x xs ih =>
      simp only [sortByLine, List.foldr_cons]
      exact (insertByLine_perm x _).trans
        (ih.cons x |>.symm.symm)

theorem insertByLine_sorted (m : PMatch) (l : List PMatch)
    (h : l.Sorted (fun a b => a.line ≤ b.line)) :
    (insertByLine m l).Sorted (fun a b => a.line ≤ b.line) := by
  induction l with
  | nil => simp [insertByLine]
  | cons x xs ih =>
      rw [List.sorted_cons] at h
      simp only [insertByLine]
      split
      · rename_i hlt
        rw [List.sorted_cons]
        refine ⟨?_, by rw [List.sorted_cons]; exact h⟩
        intro b hb
        rcases List.mem_cons.mp hb with rfl | hb
        · exact le_of_lt hlt
        · exact le_trans (le_of_lt hlt) (h.1 b hb)
      · rename_i hge
        rw [List.sorted_cons]
        refine ⟨?_, ih h.2⟩
        intro b hb
        have := (insertByLine_perm m xs).mem_iff.mp hb
        rcases List.mem_cons.mp this with rfl | hb'
        · exact le_of_not_lt hge
        · exact h.1 b hb'

theorem sortByLine_sorted (l : List PMatch) :
    (sortByLine l).Sorted (fun a b => a.line ≤ b.line) := by
  induction l with
  | nil => simp [sortByLine]
  | cons x xs ih => exact insertByLine_sorted x _ ih

theorem enumFrom_getD {α : Type} (d : α) :
    ∀ (l : List α) (i k : Nat) (x : α), (k, x) ∈ enumFrom i l →
      i ≤ k ∧ l.getD (k - i) d = x := by
  intro l
  induction l with
  | nil => intro i k x h; simp [enumFrom] at h
  | cons y rest ih =>
      intro i k x h
      simp only [enumFrom, List.mem_cons] at h
      rcases h with h | h
      · injection h with h1 h2
        subst h1
        subst h2
        simp
      · obtain ⟨hik, hget⟩ := ih (i + 1) k x h
        refine ⟨by omega, ?_⟩
        have hk : k - i = (k - (i + 1)) + 1 := by omega
        rw [hk]
        simpa using hget

theorem rawMatches_infix (lines : List String) (rules : List Rule) (m : PMatch)
    (h : m ∈ rawMatches lines rules) :
    m.matched_text.toList <:+: (lines.getD (m.line - 1) "").toList := by
  simp only [rawMatches, List.mem_flatMap] at h
  obtain ⟨rule, hrule, hm⟩ := h
  split at hm
  · simp at hm
  · rename_i rgx hpat
    simp only [List.mem_flatMap, List.mem_map] at hm
    obtain ⟨le, hle, oc, hoc, rfl⟩ := hm
    obtain ⟨hk, hget⟩ := enumFrom_getD "" lines 1 le.1 le.2 (by simpa using hle)
    have htext : (String.mk oc.2).toList = oc.2 := rfl
    simp only [htext, hget]
    exact finditerAux_infix _ rgx le.2.toList 0 oc hoc

end PatternMatcher

/-- C6: for every source text and rule set, `match_patterns` output is sorted
by ascending line number, is (up to the stable sort) exactly one PatternMatch
per regex match occurrence — a line with k occurrences of a rule's pattern
contributes k entries — and every `matched_text` is a substring of the source
line it is reported on. -/
theorem C6_pattern_matcher (source_code : String) (rules : List PatternMatcher.Rule) :
    (PatternMatcher.match_patterns source_code rules).Sorted
        (fun a b => a.line ≤ b.line) ∧
    (PatternMatcher.match_patterns source_code rules).Perm
      (if source_code = "" ∨ rules = [] then []
       else PatternMatcher.rawMatches (source_code.splitOn "\n") rules) ∧
    ∀ m ∈ PatternMatcher.match_patterns source_code rules,
      m.matched_text.toList <:+:
        ((source_code.splitOn "\n").getD (m.line - 1) "").toList := by
  unfold PatternMatcher.match_patterns
  split
  · exact ⟨List.sorted_nil, List.Perm.refl _, by simp⟩
  · refine ⟨PatternMatcher.sortByLine_sorted _, PatternMatcher.sortByLine_perm _, ?_⟩
    intro m hm
    exact PatternMatcher.rawMatches_infix _ rules m
      ((PatternMatcher.sortByLine_perm _).mem_iff.mp hm)

namespace Fuzzer

/-- Embeds `string.ascii_letters`. -/
def ascii_letters : List Char :=
  "abcdefghijklmnopqrstuvwxyzABCDEFGHIJKLMNOPQRSTUVWXYZ".toList

/-- Embeds `string.digits`. -/
def asciiDigits : List Char := "0123456789".toList

/-- Embeds `special_chars = ';|&><$`"\'\\'` of `generate_random_string`. -/
def special_chars : List Char := ";|&><$`\"'\\".toList

/-- Embeds `all_chars = letters + digits + special_chars`. -/
def all_chars : List Char := ascii_letters ++ asciiDigits ++ special_chars

/-- Embeds `generate_random_string` (src/engines/dynamic/fuzzer.py), with the
`random` module modelled by an oracle `g`: `random.randint(lo, hi)` consumes
`g 0` and yields `lo + g 0 % (hi - lo + 1)`, and the j-th
`random.choice(all_chars)` consumes `g (j+1)` and yields
`all_chars[g (j+1) % len(all_chars)]`. -/
def generate_random_string (min_length max_length : Nat) (g : Nat → Nat) : String :=
  let length := min_length + g 0 % (max_length - min_length + 1)
  String.mk ((List.range length).map fun j =>
    all_chars.getD (g (j + 1) % all_chars.length) ' ')

/-- The fixed `injection_patterns` catalog of `generate_fuzz_cases`. -/
def injection_patterns : List String :=
  ["; ls", "| cat /etc/passwd", "& whoami", "`id`", "$(whoami)",
   "\"> /tmp/test", "' || 1=1 --", "; rm -rf /", "| nc -l 1234"]

/-- Embeds `generate_fuzz_cases` (src/engines/dynamic/fuzzer.py): `num_tests` random
strings of length 1–50, then `injection_patterns[:min(num_tests, len)]`,
truncated to `num_tests * 2` cases.  `g i` is the random oracle of the i-th
generated string. -/
def generate_fuzz_cases (num_tests : Nat) (g : Nat → Nat → Nat) : List String :=
  let test_cases := (List.range num_tests).map fun i => generate_random_string 1 50 (g i)
  let withPatterns :=
    test_cases ++ injection_patterns.take (min num_tests injection_patterns.length)
  withPatterns.take (num_tests * 2)

end Fuzzer

/-- C7: for every requested count N and every random oracle, the fuzzer
produces exactly the N random strings followed by the first min(N, 9)
catalog payloads (so the final `[:2N]` truncation never cuts anything), the
total is at most 2N, and each random string has between 1 and 100 characters
(in fact between 1 and 50: `generate_fuzz_cases` calls
`generate_random_string(1, 50)`), all drawn from letters, digits and shell
metacharacters. -/
theorem C7_fuzz_cases (n : Nat) (g : Nat → Nat → Nat) :
    Fuzzer.generate_fuzz_cases n g =
      ((List.range n).map fun i => Fuzzer.generate_random_string 1 50 (g i)) ++
        Fuzzer.injection_patterns.take (min n Fuzzer.injection_patterns.length) ∧
    (Fuzzer.generate_fuzz_cases n g).length = n + min n 9 ∧
    (Fuzzer.generate_fuzz_cases n g).length ≤ 2 * n ∧
    ∀ i : Nat,
      1 ≤ (Fuzzer.generate_random_string 1 50 (g i)).length ∧
      (Fuzzer.generate_random_string 1 50 (g i)).length ≤ 100 ∧
      ∀ c ∈ (Fuzzer.generate_random_string 1 50 (g i)).toList, c ∈ Fuzzer.all_chars := by
  have hlen9 : Fuzzer.injection_patterns.length = 9 := by decide
  have htake : ∀ m : Nat, (Fuzzer.injection_patterns.take m).length = min m 9 := by
    intro m
    simp [List.length_take, hlen9]
  have hstrlen : ∀ i : Nat,
      (Fuzzer.generate_random_string 1 50 (g i)).length = 1 + g i 0 % 50 := by
    intro i
    simp [Fuzzer.generate_random_string, String.length]
  have heq : Fuzzer.generate_fuzz_cases n g =
      ((List.range n).map fun i => Fuzzer.generate_random_string 1 50 (g i)) ++
        Fuzzer.injection_patterns.take (min n Fuzzer.injection_patterns.length) := by
    have hle : (((List.range n).map fun i => Fuzzer.generate_random_string 1 50 (g i)) ++
        Fuzzer.injection_patterns.take (min n Fuzzer.injection_patterns.length)).length
          ≤ n * 2 := by
      simp only [List.length_append, List.length_map, List.length_range, htake, hlen9]
      omega
    simp only [Fuzzer.generate_fuzz_cases]
    exact List.take_of_length_le hle
  refine ⟨heq, ?_, ?_, ?_⟩
  · rw [heq]
    simp only [List.length_append, List.length_map, List.length_range, htake, hlen9]
    omega
  · rw [heq]
    simp only [List.length_append, List.length_map, List.length_range, htake, hlen9]
    omega
  · intro i
    refine ⟨?_, ?_, ?_⟩
    · rw [hstrlen i]; omega
    · rw [hstrlen i]
      have := Nat.mod_lt (g i 0) (show 0 < 50 by omega)
      omega
    · intro c hc
      simp only [Fuzzer.generate_random_string] at hc
      have hc' : c ∈ (List.range (1 + g i 0 % (50 - 1 + 1))).map fun j =>
          Fuzzer.all_chars.getD (g i (j + 1) % Fuzzer.all_chars.length) ' ' := hc
      obtain ⟨j, _, rfl⟩ := List.mem_map.mp hc'
      have hlt : g i (j + 1) % Fuzzer.all_chars.length < Fuzzer.all_chars.length :=
        Nat.mod_lt _ (by decide)
      rw [List.getD_eq_getElem Fuzzer.all_chars ' ' hlt]
      exact List.getElem_mem hlt

namespace Extractors

/-- Python `int(s)`: optional surrounding whitespace, optional sign, then at
least one digit (underscore grouping is not needed here since every input
this file parses is a regex group).  `none` models `ValueError`. -/
def parseIntPy (cs : List Char) : Option Int :=
  let t := ((cs.dropWhile Char.isWhitespace).reverse.dropWhile Char.isWhitespace).reverse
  match t with
  | '+' :: ds =>
      if ds ≠ [] ∧ ds.all Char.isDigit then some (Int.ofNat (Threats.digitsToNat ds))
      else none
  | '-' :: ds =>
      if ds ≠ [] ∧ ds.all Char.isDigit then some (-(Int.ofNat (Threats.digitsToNat ds)))
      else none
  | ds =>
      if ds ≠ [] ∧ ds.all Char.isDigit then some (Int.ofNat (Threats.digitsToNat ds))
      else none

/-- One attempt of the fuzzer's stderr regex
`r'File \"[^\"]+\", line (\\d+)'` (src/engines/dynamic/fuzzer.py line 137) at
the current position.  In a raw string `\\d` is a literal backslash followed
by `d`, so group 1 is a backslash plus one or more letters `d` — returned
here as the d-run, the full group being `'\\' :: run`.  Returns the group's
d-run and the input after the match. -/
def matchFuzzAt (cs : List Char) : Option (List Char × List Char) :=
  if GoTaint.startsWith cs "File \"".toList then
    let rest := cs.drop 6
    let run := rest.takeWhile (· ≠ '"')
    let rest1 := rest.dropWhile (· ≠ '"')
    if run = [] then none
    else if GoTaint.startsWith rest1 "\", line ".toList then
      match rest1.drop 8 with
      | '\\' :: rest3 =>
          let ds := rest3.takeWhile (· = 'd')
          if ds = [] then none else some (ds, rest3.drop ds.length)
      | _ => none
    else none
  else none

/-- Embeds `re.finditer` scan with the mis-escaped fuzzer pattern, collecting the
group-1 texts (`'\\' :: ds`). -/
def fuzzScan : Nat → List Char → List (List Char)
  | 0, _ => []
  | _, [] => []
  | fuel + 1, c :: rest =>
      match matchFuzzAt (c :: rest) with
      | some (ds, after) => ('\\' :: ds) :: fuzzScan fuel after
      | none => fuzzScan fuel rest

/-- The `line_numbers` extraction of `fuzz_execution`
(src/engines/dynamic/fuzzer.py lines 133–141): every `int(match.group(1))`
that parses is kept, `ValueError` is skipped. -/
def fuzz_line_numbers (stderr : String) : List Int :=
  (fuzzScan stderr.toList.length stderr.toList).filterMap parseIntPy

/-- Modelled from the spec: the intended traceback extraction — the same
scan with the correctly escaped pattern `File "[^"]+", line (\d+)`, whose
group 1 is the digit run (the extraction `fuzz_execution` was evidently
meant to perform, and the shape `threat_identifier.py` parses correctly for
`path:line` suffixes). -/
def matchFuzzSpecAt (cs : List Char) : Option (List Char × List Char) :=
  if GoTaint.startsWith cs "File \"".toList then
    let rest := cs.drop 6
    let run := rest.takeWhile (· ≠ '"')
    let rest1 := rest.dropWhile (· ≠ '"')
    if run = [] then none
    else if GoTaint.startsWith rest1 "\", line ".toList then
      let rest2 := rest1.drop 8
      let ds := rest2.takeWhile Char.isDigit
      if ds = [] then none else some (ds, rest2.drop ds.length)
    else none
  else none

def fuzzSpecScan : Nat → List Char → List (List Char)
  | 0, _ => []
  | _, [] => []
  | fuel + 1, c :: rest =>
      match matchFuzzSpecAt (c :: rest) with
      | some (ds, after) => ds :: fuzzSpecScan fuel after
      | none => fuzzSpecScan fuel rest

/-- Modelled from the spec: the line numbers the intended extraction yields. -/
def spec_fuzz_line_numbers (stderr : String) : List Int :=
  (fuzzSpecScan stderr.toList.length stderr.toList).filterMap parseIntPy

/-- One attempt of the file monitor's stack regex
`r'([A-Za-z]:\\\\[^:]+|/[^:]+):(\\d+)'` (src/engines/dynamic/file_monitor.py
line 128).  In a raw string `\\\\` is two literal backslashes and `\\d` a
literal backslash plus `d`, so group 2 is again a backslash plus a d-run. -/
def matchFmAt (cs : List Char) : Option (List Char × List Char) :=
  let tailMatch : List Char → Option (List Char × List Char) := fun rest =>
    let run := rest.takeWhile (· ≠ ':')
    let rest1 := rest.dropWhile (· ≠ ':')
    if run = [] then none
    else
      match rest1 with
      | ':' :: '\\' :: rest3 =>
          let ds := rest3.takeWhile (· = 'd')
          if ds = [] then none else some (ds, rest3.drop ds.length)
      | _ => none
  match cs with
  | '/' :: rest => tailMatch rest
  | c :: ':' :: '\\' :: '\\' :: rest => if c.isAlpha then tailMatch rest else none
  | _ => none

def fmScan : Nat → List Char → List (List Char)
  | 0, _ => []
  | _, [] => []
  | fuel + 1, c :: rest =>
      match matchFmAt (c :: rest) with
      | some (ds, after) => ('\\' :: ds) :: fmScan fuel after
      | none => fmScan fuel rest

/-- The `line_numbers` extraction of `analyze_file_activity`
(src/engines/dynamic/file_monitor.py lines 125–132): only run when the log
line carries a `stack=` marker; every parsed `int(match.group(2))` is kept. -/
def fm_line_numbers (line : String) : List Int :=
  if Threats.hasSub line "stack=" then
    (fmScan line.toList.length line.toList).filterMap parseIntPy
  else []

theorem parseIntPy_backslash_d (ds : List Char) (h : ds.all (· = 'd') = true) :
    parseIntPy ('\\' :: ds) = none := by
  have hnws : ∀ c ∈ '\\' :: ds, c.isWhitespace = false := by
    intro c hc
    rcases List.mem_cons.mp hc with rfl | hc
    · decide
    · have := List.all_eq_true.mp h c hc
      simp only [decide_eq_true_eq] at this
      subst this
      decide
  have h1 : ('\\' :: ds).dropWhile Char.isWhitespace = '\\' :: ds := by
    apply List.dropWhile_eq_self_iff.mpr
    intro hl
    rw [hnws _ (List.get_mem _ _ hl)]
    simp
  have h2 : (('\\' :: ds).reverse.dropWhile Char.isWhitespace) = ('\\' :: ds).reverse := by
    apply List.dropWhile_eq_self_iff.mpr
    intro hl
    rw [hnws _ (List.mem_reverse.mp (List.get_mem _ _ hl))]
    simp
  have hnd : ('\\' :: ds).all Char.isDigit = false := by
    simp [List.all_cons]
  simp only [parseIntPy, h1, h2, List.reverse_reverse]
  simp [hnd]

theorem matchFuzzAt_shape (cs ds after : List Char)
    (h : matchFuzzAt cs = some (ds, after)) : ds.all (· = 'd') = true := by
  simp only [matchFuzzAt] at h
  split at h
  · split at h
    · exact absurd h (by simp)
    · split at h
      · split at h
        · split at h
          · exact absurd h (by simp)
          · injection h with h1
            injection h1 with hma hmb
            subst hma
            exact List.all_eq_true.mpr fun c hc => by
              simpa using List.mem_takeWhile_imp hc
        · exact absurd h (by simp)
      · exact absurd h (by simp)
  · exact absurd h (by simp)

theorem matchFmAt_shape (cs ds after : List Char)
    (h : matchFmAt cs = some (ds, after)) : ds.all (· = 'd') = true := by
  have htail : ∀ rest : List Char, (match rest.dropWhile (· ≠ ':') with
      | ':' :: '\\' :: rest3 =>
          if rest3.takeWhile (· = 'd') = [] then none
          else some (rest3.takeWhile (· = 'd'), rest3.drop (rest3.takeWhile (· = 'd')).length)
      | _ => (none : Option (List Char × List Char))) = some (ds, after) →
      ds.all (· = 'd') = true := by
    intro rest hr
    split at hr
    · split at hr
      · exact absurd hr (by simp)
      · injection hr with h1
        injection h1 with hma hmb
        subst hma
        exact List.all_eq_true.mpr fun c hc => by
          simpa using List.mem_takeWhile_imp hc
    · exact absurd hr (by simp)
  simp only [matchFmAt] at h
  split at h
  · split at h
    · exact absurd h (by simp)
    · exact htail _ h
  · split at h
    · split at h
      · exact absurd h (by simp)
      · exact htail _ h
    · exact absurd h (by simp)
  · exact absurd h (by simp)

theorem fuzzScan_filterMap_nil (fuel : Nat) :
    ∀ cs : List Char, (fuzzScan fuel cs).filterMap parseIntPy = [] := by
  induction fuel with
  | zero => intro cs; simp [fuzzScan]
  | succ fuel ih =>
      intro cs
      cases cs with
      | nil => simp [fuzzScan]
      | cons c rest =>
          simp only [fuzzScan]
          cases hm : matchFuzzAt (c :: rest) with
          | none => exact ih rest
          | some p =>
              obtain ⟨ds, after⟩ := p
              rw [List.filterMap_cons,
                parseIntPy_backslash_d ds (matchFuzzAt_shape _ ds after hm)]
              exact ih after

theorem fmScan_filterMap_nil (fuel : Nat) :
    ∀ cs : List Char, (fmScan fuel cs).filterMap parseIntPy = [] := by
  induction fuel with
  | zero => intro cs; simp [fmScan]
  | succ fuel ih =>
      intro cs
      cases cs with
      | nil => simp [fmScan]
      | cons c rest =>
          simp only [fmScan]
          cases hm : matchFmAt (c :: rest) with
          | none => exact ih rest
          | some p =>
              obtain ⟨ds, after⟩ := p
              rw [List.filterMap_cons,
                parseIntPy_backslash_d ds (matchFmAt_shape _ ds after hm)]
              exact ih after

end Extractors

/-- C8: the claim is what the code was meant to do, and the code cannot do
it.  Both extraction regexes are written with doubled escapes inside raw
strings (`\\d` — a literal backslash and the letter d — in fuzzer.py line
137, and `\\\\`/`\\d` in file_monitor.py line 128), so they never match a
real traceback `line <N>` or stack `path:<N>` suffix; even on text that does
contain literal `\d`, `int()` of the captured group raises `ValueError`.
Hence `line_numbers` is always empty, while the spec-modelled correct
pattern (identical to the one threat_identifier.py uses, correctly escaped)
recovers the line number. -/
theorem C8_extraction_code_bug :
    (∀ stderr : String, Extractors.fuzz_line_numbers stderr = []) ∧
    (∀ line : String, Extractors.fm_line_numbers line = []) ∧
    Extractors.spec_fuzz_line_numbers
      "  File \"/app/target.py\", line 7, in <module>" = [7] ∧
    Extractors.fuzz_line_numbers
      "  File \"/app/target.py\", line 7, in <module>" = [] ∧
    Threats.find_path_lines
      "[ALERT] FILE OPEN: /etc/passwd (mode: r) | stack=/app/target.py:7" = [7] ∧
    Extractors.fm_line_numbers
      "[ALERT] FILE OPEN: /etc/passwd (mode: r) | stack=/app/target.py:7" = [] := by
  have hfuzz : ∀ stderr : String, Extractors.fuzz_line_numbers stderr = [] := by
    intro stderr
    exact Extractors.fuzzScan_filterMap_nil _ _
  have hfm : ∀ line : String, Extractors.fm_line_numbers line = [] := by
    intro line
    unfold Extractors.fm_line_numbers
    split
    · exact Extractors.fmScan_filterMap_nil _ _
    · rfl
  exact ⟨hfuzz, hfm, by decide, hfuzz _, by decide, hfm _⟩

namespace Sandbox

/-- The dict `_execute_with_hooks` puts on the result queue when the worker
runs to completion (src/engines/dynamic/sandbox.py).  Python's float
`execution_time` is abstracted as an integer; no claim involves time
arithmetic. -/
structure ExecResult where
  return_code : Int
  stdout : String
  stderr : String
  execution_time : Int
  deriving Repr, DecidableEq

/-- The observable outcome of the worker process at the moment
`run_in_sandbox` resumes after `worker.join(timeout)`:
whether the worker had finished within the wall-clock timeout
(`not worker.is_alive()`), what the result queue holds (`{}` → `none`), and
the log entries drained from the log queue — exactly the inputs the
post-join code reads.  Process scheduling and the `terminate()` side effect
live outside the embedding. -/
structure WorkerOutcome where
  finishedWithinTimeout : Bool
  resultQueue : Option ExecResult
  logQueue : List String
  deriving Repr, DecidableEq

/-- The record `run_in_sandbox` returns in queue mode. -/
structure SandboxResult where
  return_code : Int
  stdout : String
  stderr : String
  execution_time : Int
  log_file : String
  log_entries : List String
  timed_out : Bool
  deriving Repr, DecidableEq

/-- The queue-mode tail of `run_in_sandbox`
(src/engines/dynamic/sandbox.py lines 183–215): `timed_out` is set iff the
worker was still alive after `join(timeout)` (it is then terminated), the
result dict is read if present with per-field defaults otherwise, and the
log queue is drained into `log_entries` in both cases. -/
def run_in_sandbox_queue (timeout : Nat) (w : WorkerOutcome) : SandboxResult :=
  let timed_out := !w.finishedWithinTimeout
  { return_code := (match w.resultQueue with | some r => r.return_code | none => -1),
    stdout := (match w.resultQueue with | some r => r.stdout | none => ""),
    stderr :=
      (match w.resultQueue with
       | some r => r.stderr
       | none =>
           if timed_out then
             "Execution timed out after " ++ toString timeout ++ " seconds"
           else ""),
    execution_time :=
      (match w.resultQueue with
       | some r => r.execution_time
       | none => if timed_out then (timeout : Int) else 0),
    log_file := "",
    log_entries := w.logQueue,
    timed_out := timed_out }

end Sandbox

/-- C9: in queue mode `run_in_sandbox` marks `timed_out = true` exactly when
the worker was still alive after the wall-clock `join(timeout)` (the worker
is then terminated), still returns a well-formed record carrying every log
entry collected before termination, and fills the timeout defaults when the
worker never delivered a result; a run that finishes within the timeout
comes back with `timed_out = false`. -/
theorem C9_sandbox_timeout (timeout : Nat) (w : Sandbox.WorkerOutcome) :
    (Sandbox.run_in_sandbox_queue timeout w).timed_out = !w.finishedWithinTimeout ∧
    (Sandbox.run_in_sandbox_queue timeout w).log_entries = w.logQueue ∧
    (w.finishedWithinTimeout = false →
      (Sandbox.run_in_sandbox_queue timeout w).timed_out = true) ∧
    (w.finishedWithinTimeout = true →
      (Sandbox.run_in_sandbox_queue timeout w).timed_out = false) ∧
    (w.finishedWithinTimeout = false → w.resultQueue = none →
      (Sandbox.run_in_sandbox_queue timeout w).return_code = -1 ∧
      (Sandbox.run_in_sandbox_queue timeout w).stderr =
        "Execution timed out after " ++ toString timeout ++ " seconds") := by
  refine ⟨rfl, rfl, ?_, ?_, ?_⟩
  · intro h
    simp [Sandbox.run_in_sandbox_queue, h]
  · intro h
    simp [Sandbox.run_in_sandbox_queue, h]
  · intro h hq
    simp [Sandbox.run_in_sandbox_queue, h, hq]

/-- Witness for C9: a worker that exceeded a 30-second timeout with two log
entries collected before termination, and nothing on the result queue. -/
theorem C9_sandbox_timeout_witness :
    ((false : Bool) = false ∧ (true : Bool) = true) ∧
    ((Sandbox.run_in_sandbox_queue 30
        ⟨false, none, ["[ALERT] FILE OPEN: /etc/passwd", "[INFO] NETWORK: connect"]⟩).timed_out
          = true ∧
     (Sandbox.run_in_sandbox_queue 30
        ⟨false, none, ["[ALERT] FILE OPEN: /etc/passwd", "[INFO] NETWORK: connect"]⟩).log_entries
          = ["[ALERT] FILE OPEN: /etc/passwd", "[INFO] NETWORK: connect"] ∧
     (Sandbox.run_in_sandbox_queue 30
        ⟨false, none, ["[ALERT] FILE OPEN: /etc/passwd", "[INFO] NETWORK: connect"]⟩).return_code
          = -1) ∧
    (Sandbox.run_in_sandbox_queue 30 ⟨true, some ⟨0, "ok", "", 1⟩, []⟩).timed_out = false :=
  ⟨⟨rfl, rfl⟩,
   ⟨(C9_sandbox_timeout 30 ⟨false, none, _⟩).2.2.1 rfl,
    (C9_sandbox_timeout 30 ⟨false, none, _⟩).2.1,
    ((C9_sandbox_timeout 30 ⟨false, none, _⟩).2.2.2.2 rfl rfl).1⟩,
   (C9_sandbox_timeout 30 ⟨true, some ⟨0, "ok", "", 1⟩, []⟩).2.2.2.1 rfl⟩
